import Mathlib

/-!
# SpiceDB datastore: caveat store and schema-version driver

A shallow embedding of

* `internal/datastore/postgres/caveat.go` (the caveat table: read, list, write,
  soft-delete, with the ID->XID migration phases),
* `internal/datastore/crdb/migrations/driver.go` (the schema-version marker).

The Go code builds SQL statements with the squirrel builders and hands them to a
pgx transaction.  The builders are embedded as plain records, the transaction as
a record holding the rows of the caveat table, and the statements are run by a
small relational interpreter (`Tx.Query`, `Tx.QueryRow`, `Tx.Exec`).
-/

namespace Spicedb

/-! ## Go values shared by the packages -/

/-- Go `error` values, as far as the code distinguishes them. -/
inductive Error where
  /-- The value `pgx.ErrNoRows`. -/
  | ErrNoRows
  /-- The value built by `datastore.NewCaveatNameNotFoundErr(name)`. -/
  | CaveatNameNotFound (name : String)
  /-- A `*pgconn.PgError` carrying its SQLSTATE code. -/
  | PgError (code : String)
  /-- Any other failure (driver, server, codec, statement builder), by message. -/
  | other (msg : String)
  /-- The value built by `fmt.Errorf(format, err)` with a `%w` verb. -/
  | wrapped (format : String) (inner : Error)
deriving DecidableEq, Repr

/-- The call `fmt.Errorf(format, err)` for a format with one `%w`. -/
def Errorf (format : String) (err : Error) : Error := Error.wrapped format err

/-- The call `errors.Is(err, target)`: walks the chain of wrapped errors. -/
def Error.Is : Error → Error → Bool
  | Error.wrapped f inner, target =>
      decide (Error.wrapped f inner = target) || Error.Is inner target
  | e, target => decide (e = target)

/-- The type `pgtype.Status`. -/
inductive Status where
  | Undefined | Null | Present
deriving DecidableEq, Repr

/-- The type `xid8` of the postgres package: a 64-bit transaction id with its
pgtype status.  The Go zero value is `⟨0, Status.Undefined⟩`. -/
structure xid8 where
  Uint : Nat
  Status : Status
deriving DecidableEq, Repr

/-- Modelled from the spec: the sentinel "not yet deleted" of the deleted-at
columns (§3); the constant `liveDeletedTxnID` is declared in a file of the
postgres package that is not among the sources.  No proof depends on the number.
-/
def liveDeletedTxnID : Nat := 9223372036854775807

/-- Modelled from the spec: the absent lower bound of a revision; the variable
`noXmin` is declared in a file of the postgres package that is not among the
sources. -/
def noXmin : xid8 := ⟨0, Status.Null⟩

/-- The struct `postgresRevision{tx, xmin}`. -/
structure postgresRevision where
  tx : xid8
  xmin : xid8
deriving DecidableEq, Repr

/-- The interface `datastore.Revision`, with the value `datastore.NoRevision`. -/
inductive Revision where
  | NoRevision
  | postgres (rev : postgresRevision)
deriving DecidableEq, Repr

/-- Modelled from the spec: the enum of §3 ("Migration Phase"); the Go type
`migrationPhase` is declared in a file of the postgres package that is not among
the sources.  `caveat.go` names `writeBothReadOld` (write-both-read-legacy) and
`writeBothReadNew` (write-both-read-new) and treats every other value alike. -/
inductive migrationPhase where
  | legacyOnly
  | writeBothReadOld
  | writeBothReadNew
  | complete
deriving DecidableEq, Repr

/-- The message `core.CaveatDefinition`: a name and an opaque expression body. -/
structure CaveatDefinition where
  Name : String
  SerializedExpression : List Nat
deriving DecidableEq, Repr

/-- The generated methods `MarshalVT` and `UnmarshalVT` of
`core.CaveatDefinition`, which live in `pkg/proto` and are taken as a
parameter. -/
structure Codec where
  MarshalVT : CaveatDefinition → Except Error (List Nat)
  UnmarshalVT : List Nat → Except Error CaveatDefinition

/-! ## The caveat table -/

/-- The columns of the caveat table (`colCaveatName`, `colCaveatDefinition`,
`colCreatedXid`, `colDeletedXid`, `colCreatedTxnDeprecated`,
`colDeletedTxnDeprecated`). -/
inductive Column where
  | name
  | definition
  | created_xid
  | deleted_xid
  | created_transaction
  | deleted_transaction
deriving DecidableEq, Repr

def colCaveatName : Column := Column.name
def colCaveatDefinition : Column := Column.definition
def colCreatedXid : Column := Column.created_xid
def colDeletedXid : Column := Column.deleted_xid
def colCreatedTxnDeprecated : Column := Column.created_transaction
def colDeletedTxnDeprecated : Column := Column.deleted_transaction

/-- A value sent to or received from the database. -/
inductive Val where
  | text (s : String)
  | bytea (b : List Nat)
  | int8 (n : Nat)
  | null
  /-- An argument the driver cannot encode (an `xid8` of status `Undefined`). -/
  | undefined
deriving DecidableEq, Repr

/-- One stored row of the caveat table.  `created_transaction` is nullable. -/
structure Row where
  name : String
  definition : List Nat
  created_xid : Nat
  deleted_xid : Nat
  created_transaction : Option Nat
  deleted_transaction : Nat
deriving DecidableEq, Repr

/-- The value of a column of a row. -/
def Row.get (r : Row) : Column → Val
  | Column.name => Val.text r.name
  | Column.definition => Val.bytea r.definition
  | Column.created_xid => Val.int8 r.created_xid
  | Column.deleted_xid => Val.int8 r.deleted_xid
  | Column.created_transaction =>
      match r.created_transaction with
      | some n => Val.int8 n
      | none => Val.null
  | Column.deleted_transaction => Val.int8 r.deleted_transaction

/-- Whether a value has the type of a column (`NULL` has every type). -/
def Column.typeOk : Column → Val → Bool
  | _, Val.null => true
  | Column.name, Val.text _ => true
  | Column.definition, Val.bytea _ => true
  | Column.created_xid, Val.int8 _ => true
  | Column.deleted_xid, Val.int8 _ => true
  | Column.created_transaction, Val.int8 _ => true
  | Column.deleted_transaction, Val.int8 _ => true
  | _, _ => false

/-- Whether a column is declared `NOT NULL`. -/
def Column.notNull : Column → Bool
  | Column.created_transaction => false
  | _ => true

/-- Assign a column of a row; an ill-typed or `NULL` value for a `NOT NULL`
column leaves the row as it is (the interpreter rejects such statements before
it assigns). -/
def Row.set (r : Row) : Column × Val → Row
  | (Column.name, Val.text s) => { r with name := s }
  | (Column.definition, Val.bytea b) => { r with definition := b }
  | (Column.created_xid, Val.int8 n) => { r with created_xid := n }
  | (Column.deleted_xid, Val.int8 n) => { r with deleted_xid := n }
  | (Column.created_transaction, Val.int8 n) => { r with created_transaction := some n }
  | (Column.created_transaction, Val.null) => { r with created_transaction := none }
  | (Column.deleted_transaction, Val.int8 n) => { r with deleted_transaction := n }
  | _ => r

/-- The argument the driver sends for an `xid8`. -/
def xid8.toVal (x : xid8) : Val :=
  match x.Status with
  | Status.Present => Val.int8 x.Uint
  | Status.Null => Val.null
  | Status.Undefined => Val.undefined

/-! ## squirrel builders -/

/-- A predicate of a `WHERE` clause. -/
inductive Sqlizer where
  /-- The predicate `sq.Eq{col: v}` for a scalar `v`. -/
  | Eq (col : Column) (v : Val)
  /-- The predicate `sq.Eq{col: vs}` for a slice: `col IN (vs)`, and `(1=0)`
  for the empty slice. -/
  | EqAny (col : Column) (vs : List Val)
  /-- The predicate `sq.LtOrEq{col: v}`. -/
  | LtOrEq (col : Column) (v : Val)
  /-- The predicate `sq.Gt{col: v}`. -/
  | Gt (col : Column) (v : Val)
deriving DecidableEq, Repr

/-- Whether a row satisfies a predicate. -/
def Sqlizer.holds (r : Row) : Sqlizer → Bool
  | Sqlizer.Eq col v => decide (r.get col = v)
  | Sqlizer.EqAny col vs => decide (r.get col ∈ vs)
  | Sqlizer.LtOrEq col v =>
      match r.get col, v with
      | Val.int8 a, Val.int8 b => decide (a ≤ b)
      | _, _ => false
  | Sqlizer.Gt col v =>
      match r.get col, v with
      | Val.int8 a, Val.int8 b => decide (b < a)
      | _, _ => false

/-- Whether a row satisfies every predicate of a `WHERE` clause. -/
def matchesAll (whereParts : List Sqlizer) (r : Row) : Bool :=
  whereParts.all (Sqlizer.holds r)

/-- The squirrel `SelectBuilder` on the caveat table. -/
structure SelectBuilder where
  columns : List Column
  whereParts : List Sqlizer
  orderBys : List Column
deriving DecidableEq, Repr

/-- The squirrel `InsertBuilder` on the caveat table. -/
structure InsertBuilder where
  columns : List Column
  values : List (List Val)
deriving DecidableEq, Repr

/-- The squirrel `UpdateBuilder` on the caveat table. -/
structure UpdateBuilder where
  whereParts : List Sqlizer
  setClauses : List (Column × Val)
deriving DecidableEq, Repr

/-- A statement accepted by `Tx.Exec`. -/
inductive Statement where
  | insert (columns : List Column) (values : List (List Val))
  | update (whereParts : List Sqlizer) (setClauses : List (Column × Val))
deriving DecidableEq, Repr

def SelectBuilder.Where (b : SelectBuilder) (p : Sqlizer) : SelectBuilder :=
  { b with whereParts := b.whereParts ++ [p] }

def SelectBuilder.OrderBy (b : SelectBuilder) (col : Column) : SelectBuilder :=
  { b with orderBys := b.orderBys ++ [col] }

/-- The method `SelectBuilder.ToSql`: fails without a result column. -/
def SelectBuilder.ToSql (b : SelectBuilder) : Except Error SelectBuilder :=
  if b.columns = [] then
    Except.error (Error.other "select statements must have at least one result column")
  else Except.ok b

def InsertBuilder.Values (b : InsertBuilder) (vals : List Val) : InsertBuilder :=
  { b with values := b.values ++ [vals] }

/-- The method `InsertBuilder.ToSql`: fails without a set of values. -/
def InsertBuilder.ToSql (b : InsertBuilder) : Except Error Statement :=
  if b.values = [] then
    Except.error (Error.other "insert statements must have at least one set of values or select clause")
  else Except.ok (Statement.insert b.columns b.values)

def UpdateBuilder.Where (b : UpdateBuilder) (p : Sqlizer) : UpdateBuilder :=
  { b with whereParts := b.whereParts ++ [p] }

def UpdateBuilder.Set (b : UpdateBuilder) (col : Column) (v : Val) : UpdateBuilder :=
  { b with setClauses := b.setClauses ++ [(col, v)] }

/-- The method `UpdateBuilder.ToSql`: fails without a `SET` clause. -/
def UpdateBuilder.ToSql (b : UpdateBuilder) : Except Error Statement :=
  if b.setClauses = [] then
    Except.error (Error.other "update statements must have at least one Set clause")
  else Except.ok (Statement.update b.whereParts b.setClauses)

/-! ## The pgx transaction, as an interpreter over the rows of the table -/

/-- A pgx transaction on the caveat table.

* `rows`: the stored rows, in storage order;
* `xid`: the id of this transaction (what `pg_current_xact_id()` returns);
* `accepts`: the constraints declared with the table (in the migrations, which
  are not among the sources), as a check on the rows a statement leaves;
* `fault`: a failure of the connection or server, if any, by message. -/
structure Tx where
  rows : List Row
  xid : Nat
  accepts : List Row → Bool
  fault : Option String

/-- A pgx result set: the projected rows and the value of `rows.Err()`. -/
structure Rows where
  data : List (List Val)
  err : Option Error
deriving DecidableEq, Repr

/-- The sort key of a value: its code points, bytes or number. -/
def Val.key : Val → List Nat
  | Val.text s => s.data.map Char.toNat
  | Val.bytea b => b
  | Val.int8 n => [n]
  | Val.null => []
  | Val.undefined => []

/-- The sort key of a row for an `ORDER BY` list. -/
def sortKey (orderBys : List Column) (r : Row) : List (List Nat) :=
  orderBys.map (fun col => (r.get col).key)

/-- The rows a `SELECT` yields before projection: those that satisfy the
`WHERE` clause, in ascending order of the `ORDER BY` key (ties in storage
order). -/
def selectRows (q : SelectBuilder) (rows : List Row) : List Row :=
  List.insertionSort (fun a b => sortKey q.orderBys a ≤ sortKey q.orderBys b)
    (rows.filter (matchesAll q.whereParts))

/-- The method `tx.Query`. -/
def Tx.Query (tx : Tx) (q : SelectBuilder) : Except Error Rows :=
  match tx.fault with
  | some msg => Except.error (Error.other msg)
  | none =>
      Except.ok
        { data := (selectRows q tx.rows).map (fun r => q.columns.map r.get), err := none }

/-- The method `tx.QueryRow`, up to its `Scan`: the first row of the result, and
`pgx.ErrNoRows` when the result is empty. -/
def Tx.QueryRow (tx : Tx) (q : SelectBuilder) : Except Error (List Val) :=
  match tx.Query q with
  | Except.error err => Except.error err
  | Except.ok rows =>
      match rows.data with
      | [] => Except.error Error.ErrNoRows
      | row :: _ => Except.ok row

/-- Scan a column into a `[]byte`. -/
def scanBytes : Val → Except Error (List Nat)
  | Val.bytea b => Except.ok b
  | Val.null => Except.ok []
  | _ => Except.error (Error.other "cannot scan into []byte")

/-- Scan a column into an `xid8`. -/
def scanXid8 : Val → Except Error xid8
  | Val.int8 n => Except.ok ⟨n, Status.Present⟩
  | Val.null => Except.ok ⟨0, Status.Null⟩
  | _ => Except.error (Error.other "cannot scan into xid8")

/-- Scan a column into a `uint64`: `NULL` cannot be assigned. -/
def scanUint64 : Val → Except Error Nat
  | Val.int8 n => Except.ok n
  | _ => Except.error (Error.other "cannot scan into uint64")

/-- Modelled from the spec: the column defaults of the caveat table, which is
declared in the migrations and not among the sources.  A row is stamped with the
revision of the transaction that creates it and is "not yet deleted" (§3, §4.2);
the legacy created-at column is left `NULL` when the statement does not give
it. -/
def defaultRow (xid : Nat) : Row :=
  { name := "", definition := [], created_xid := xid, deleted_xid := liveDeletedTxnID,
    created_transaction := none, deleted_transaction := liveDeletedTxnID }

/-- Whether an assignment writes `NULL` into a `NOT NULL` column. -/
def nullViolation (a : Column × Val) : Bool :=
  a.1.notNull && decide (a.2 = Val.null)

/-- Whether an assignment is well typed. -/
def assignOk (a : Column × Val) : Bool := a.1.typeOk a.2

/-- The row an `INSERT` builds from one set of values, if the database accepts
it: as many values as columns, each of the type of its column, `name` and
`definition` given, no `NULL` in a `NOT NULL` column. -/
def insertRow (xid : Nat) (columns : List Column) (vals : List Val) : Option Row :=
  if columns.length = vals.length
      ∧ (columns.zip vals).all assignOk = true
      ∧ (columns.zip vals).any nullViolation = false
      ∧ Column.name ∈ columns ∧ Column.definition ∈ columns then
    some ((columns.zip vals).foldl Row.set (defaultRow xid))
  else none

/-- The rows an `INSERT` builds from its sets of values. -/
def insertRows (xid : Nat) (columns : List Column) : List (List Val) → Option (List Row)
  | [] => some []
  | vals :: rest =>
      match insertRow xid columns vals, insertRows xid columns rest with
      | some r, some rs => some (r :: rs)
      | _, _ => none

/-- The rows an `UPDATE` leaves: every row that satisfies the `WHERE` clause
gets the `SET` assignments. -/
def updateRows (whereParts : List Sqlizer) (setClauses : List (Column × Val))
    (rows : List Row) : List Row :=
  rows.map (fun r => if matchesAll whereParts r then setClauses.foldl Row.set r else r)

/-- The method `tx.Exec`: the number of rows affected and the transaction after
the statement, or the error of the database.  A failed statement changes
nothing. -/
def Tx.Exec (tx : Tx) : Statement → Except Error (Nat × Tx)
  | Statement.insert columns values =>
      match tx.fault with
      | some msg => Except.error (Error.other msg)
      | none =>
          match insertRows tx.xid columns values with
          | none => Except.error (Error.other "invalid input for insert")
          | some newRows =>
              if tx.accepts (tx.rows ++ newRows) then
                Except.ok (newRows.length, { tx with rows := tx.rows ++ newRows })
              else Except.error (Error.PgError "23505")
  | Statement.update whereParts setClauses =>
      match tx.fault with
      | some msg => Except.error (Error.other msg)
      | none =>
          if setClauses.all assignOk = false then
            Except.error (Error.other "invalid input for update")
          else if (tx.rows.filter (matchesAll whereParts)).length = 0 then
            Except.ok (0, tx)
          else if setClauses.any nullViolation then
            Except.error (Error.PgError "23502")
          else if tx.accepts (updateRows whereParts setClauses tx.rows) then
            Except.ok ((tx.rows.filter (matchesAll whereParts)).length,
              { tx with rows := updateRows whereParts setClauses tx.rows })
          else Except.error (Error.PgError "23505")

/-! ## `caveat.go` -/

/-- The struct `pgReader`, as far as `caveat.go` uses it: the migration phase,
the filterer that adds the snapshot predicate to a query, and the outcome of
`txSource`. -/
structure pgReader where
  migrationPhase : migrationPhase
  filterer : SelectBuilder → SelectBuilder
  txSource : Except Error Tx

/-- The struct `pgReadWriteTXN`, as far as `caveat.go` uses it. -/
structure pgReadWriteTXN where
  migrationPhase : migrationPhase
  tx : Tx
  newXID : xid8

def writeCaveat : InsertBuilder :=
  { columns := [colCaveatName, colCaveatDefinition], values := [] }

def writeCaveatDeprecated : InsertBuilder :=
  { columns := [colCaveatName, colCaveatDefinition, colCreatedTxnDeprecated], values := [] }

def listCaveat : SelectBuilder :=
  SelectBuilder.OrderBy { columns := [colCaveatDefinition], whereParts := [], orderBys := [] }
    colCaveatName

def readCaveat : SelectBuilder :=
  { columns := [colCaveatDefinition, colCreatedXid], whereParts := [], orderBys := [] }

def readCaveatDeprecated : SelectBuilder :=
  { columns := [colCaveatDefinition, colCreatedTxnDeprecated], whereParts := [], orderBys := [] }

def deleteCaveat : UpdateBuilder :=
  UpdateBuilder.Where { whereParts := [], setClauses := [] }
    (Sqlizer.Eq colDeletedXid (Val.int8 liveDeletedTxnID))

def deleteCaveatDeprecated : UpdateBuilder :=
  UpdateBuilder.Where { whereParts := [], setClauses := [] }
    (Sqlizer.Eq colDeletedTxnDeprecated (Val.int8 liveDeletedTxnID))

def errWriteCaveats : String := "unable to write caveats: %w"
def errDeleteCaveats : String := "unable delete caveats: %w"
def errListCaveats : String := "unable to list caveats: %w"
def errReadCaveat : String := "unable to read caveat: %w"

/-- The call `tx.QueryRow(ctx, sql, args...).Scan(&serializedDef, versionDest)`
of `ReadCaveatByName`: `versionDest` is `&versionTxDeprecated` (a `uint64`) in
phase `writeBothReadOld` and `&txID` (an `xid8`) otherwise.  Returns
`serializedDef`, `txID` and `versionTxDeprecated`; a variable that is not a
destination keeps its zero value. -/
def scanReadCaveat (phase : migrationPhase) :
    Except Error (List Val) → Except Error (List Nat × xid8 × Nat)
  | Except.error err => Except.error err
  | Except.ok [d, v] =>
      match scanBytes d with
      | Except.error err => Except.error err
      | Except.ok serializedDef =>
          if phase = migrationPhase.writeBothReadOld then
            match scanUint64 v with
            | Except.error err => Except.error err
            | Except.ok versionTxDeprecated =>
                Except.ok (serializedDef, ⟨0, Status.Undefined⟩, versionTxDeprecated)
          else
            match scanXid8 v with
            | Except.error err => Except.error err
            | Except.ok txID => Except.ok (serializedDef, txID, 0)
  | Except.ok _ => Except.error (Error.other "number of field descriptions must equal number of destinations")

/-- The method `pgReader.ReadCaveatByName`. -/
def ReadCaveatByName (codec : Codec) (r : pgReader) (name : String) :
    Option CaveatDefinition × Revision × Option Error :=
  let statement :=
    if r.migrationPhase = migrationPhase.writeBothReadOld then readCaveatDeprecated
    else readCaveat
  let filteredReadCaveat := r.filterer statement
  match (filteredReadCaveat.Where (Sqlizer.Eq colCaveatName (Val.text name))).ToSql with
  | Except.error err => (none, Revision.NoRevision, some (Errorf errReadCaveat err))
  | Except.ok sql =>
      match r.txSource with
      | Except.error err => (none, Revision.NoRevision, some (Errorf errReadCaveat err))
      | Except.ok tx =>
          match scanReadCaveat r.migrationPhase (tx.QueryRow sql) with
          | Except.error err =>
              if Error.Is err Error.ErrNoRows then
                (none, Revision.NoRevision, some (Error.CaveatNameNotFound name))
              else (none, Revision.NoRevision, some (Errorf errReadCaveat err))
          | Except.ok (serializedDef, txID, versionTxDeprecated) =>
              match codec.UnmarshalVT serializedDef with
              | Except.error err => (none, Revision.NoRevision, some (Errorf errReadCaveat err))
              | Except.ok d =>
                  let rev : postgresRevision :=
                    if r.migrationPhase = migrationPhase.writeBothReadOld then
                      ⟨⟨versionTxDeprecated, Status.Present⟩, noXmin⟩
                    else ⟨txID, noXmin⟩
                  (some d, Revision.postgres rev, none)

/-- The loop `for rows.Next()` of `ListCaveats` over the rows still to come,
with the definitions appended so far: the first row that does not scan or
decode ends the call with its error. -/
def listCaveatsLoop (codec : Codec) :
    List (List Val) → List CaveatDefinition → Except Error (List CaveatDefinition)
  | [], caveats => Except.ok caveats
  | row :: rest, caveats =>
      match row with
      | [d] =>
          match scanBytes d with
          | Except.error err => Except.error (Errorf errListCaveats err)
          | Except.ok defBytes =>
              match codec.UnmarshalVT defBytes with
              | Except.error err => Except.error (Errorf errListCaveats err)
              | Except.ok c => listCaveatsLoop codec rest (caveats ++ [c])
      | _ =>
          Except.error (Errorf errListCaveats
            (Error.other "number of field descriptions must equal number of destinations"))

/-- The method `pgReader.ListCaveats`: the slice of definitions (`nil` is the
empty list) and the error. -/
def ListCaveats (codec : Codec) (r : pgReader) (caveatNames : List String) :
    List CaveatDefinition × Option Error :=
  let caveatsWithNames :=
    if caveatNames.length > 0 then
      listCaveat.Where (Sqlizer.EqAny colCaveatName (caveatNames.map Val.text))
    else listCaveat
  let filteredListCaveat := r.filterer caveatsWithNames
  match filteredListCaveat.ToSql with
  | Except.error err => ([], some (Errorf errListCaveats err))
  | Except.ok sql =>
      match r.txSource with
      | Except.error err => ([], some (Errorf errListCaveats err))
      | Except.ok tx =>
          match tx.Query sql with
          | Except.error err => ([], some (Errorf errListCaveats err))
          | Except.ok rows =>
              match listCaveatsLoop codec rows.data [] with
              | Except.error err => ([], some err)
              | Except.ok caveats =>
                  match rows.err with
                  | some err => ([], some (Errorf errListCaveats err))
                  | none => (caveats, none)

/-- The method `pgReadWriteTXN.deleteCaveatsFromNames`: the error, and the
receiver with its transaction after the statement. -/
def deleteCaveatsFromNames (rwt : pgReadWriteTXN) (names : List String) :
    Option Error × pgReadWriteTXN :=
  match ((deleteCaveat.Set colDeletedXid rwt.newXID.toVal).Where
      (Sqlizer.EqAny colCaveatName (names.map Val.text))).ToSql with
  | Except.error err => (some (Errorf errDeleteCaveats err), rwt)
  | Except.ok sql0 =>
      let sql : Except Error Statement :=
        if rwt.migrationPhase = migrationPhase.writeBothReadNew
            ∨ rwt.migrationPhase = migrationPhase.writeBothReadOld then
          let baseQuery :=
            if rwt.migrationPhase = migrationPhase.writeBothReadOld then deleteCaveatDeprecated
            else deleteCaveat
          (((baseQuery.Where (Sqlizer.EqAny colCaveatName (names.map Val.text))).Set
            colDeletedTxnDeprecated (Val.int8 rwt.newXID.Uint)).Set
            colDeletedXid rwt.newXID.toVal).ToSql
        else Except.ok sql0
      match sql with
      | Except.error err => (some (Errorf errDeleteCaveats err), rwt)
      | Except.ok stmt =>
          match rwt.tx.Exec stmt with
          | Except.error err => (some (Errorf errDeleteCaveats err), rwt)
          | Except.ok (_, tx) => (none, { rwt with tx := tx })

/-- The method `pgReadWriteTXN.DeleteCaveats`. -/
def DeleteCaveats (rwt : pgReadWriteTXN) (names : List String) :
    Option Error × pgReadWriteTXN :=
  deleteCaveatsFromNames rwt names

/-- The loop `for _, caveat := range caveats` of `WriteCaveats` over the
definitions still to come, with the insert and the written names built so
far. -/
def writeCaveatsLoop (codec : Codec) (rwt : pgReadWriteTXN) :
    List CaveatDefinition → InsertBuilder → List String →
      Except Error (InsertBuilder × List String)
  | [], write, writtenCaveatNames => Except.ok (write, writtenCaveatNames)
  | caveat :: rest, write, writtenCaveatNames =>
      match codec.MarshalVT caveat with
      | Except.error err => Except.error (Errorf errWriteCaveats err)
      | Except.ok definitionBytes =>
          let valuesToWrite := [Val.text caveat.Name, Val.bytea definitionBytes]
          let valuesToWrite :=
            if rwt.migrationPhase = migrationPhase.writeBothReadNew
                ∨ rwt.migrationPhase = migrationPhase.writeBothReadOld then
              valuesToWrite ++ [Val.int8 rwt.newXID.Uint]
            else valuesToWrite
          writeCaveatsLoop codec rwt rest (write.Values valuesToWrite)
            (writtenCaveatNames ++ [caveat.Name])

/-- The method `pgReadWriteTXN.WriteCaveats`: the error, and the receiver with
its transaction after the statements that ran. -/
def WriteCaveats (codec : Codec) (rwt : pgReadWriteTXN) (caveats : List CaveatDefinition) :
    Option Error × pgReadWriteTXN :=
  let write :=
    if rwt.migrationPhase = migrationPhase.writeBothReadNew
        ∨ rwt.migrationPhase = migrationPhase.writeBothReadOld then writeCaveatDeprecated
    else writeCaveat
  match writeCaveatsLoop codec rwt caveats write [] with
  | Except.error err => (some err, rwt)
  | Except.ok (write, writtenCaveatNames) =>
      match deleteCaveatsFromNames rwt writtenCaveatNames with
      | (some err, rwt1) => (some (Errorf errWriteCaveats err), rwt1)
      | (none, rwt1) =>
          match write.ToSql with
          | Except.error err => (some (Errorf errWriteCaveats err), rwt1)
          | Except.ok sql =>
              match rwt1.tx.Exec sql with
              | Except.error err => (some (Errorf errWriteCaveats err), rwt1)
              | Except.ok (_, tx) => (none, { rwt1 with tx := tx })

/-- Modelled from the spec: the snapshot predicate a reader's filterer adds,
from the visibility rule of §3 ("a row is visible at snapshot revision R iff
`created_at_revision <= R` and `deleted_at_revision` is unset or `> R`"), on the
columns the phase reads.  The filterer itself is a field of `pgReader` and is set
where the reader is built, outside the sources. -/
def snapshotFilterer (phase : migrationPhase) (R : Nat) (q : SelectBuilder) : SelectBuilder :=
  if phase = migrationPhase.writeBothReadOld then
    (q.Where (Sqlizer.LtOrEq colCreatedTxnDeprecated (Val.int8 R))).Where
      (Sqlizer.Gt colDeletedTxnDeprecated (Val.int8 R))
  else
    (q.Where (Sqlizer.LtOrEq colCreatedXid (Val.int8 R))).Where
      (Sqlizer.Gt colDeletedXid (Val.int8 R))

/-- A filterer that adds the given predicates to the `WHERE` clause. -/
def whereFilterer (preds : List Sqlizer) (q : SelectBuilder) : SelectBuilder :=
  { q with whereParts := q.whereParts ++ preds }

/-- The deleted-at marker the soft-delete of a phase tests for liveness: the
legacy column in phase `writeBothReadOld` (`deleteCaveatDeprecated`), the xid
column otherwise (`deleteCaveat`). -/
def Row.deletedAt (phase : migrationPhase) (r : Row) : Nat :=
  if phase = migrationPhase.writeBothReadOld then r.deleted_transaction else r.deleted_xid

/-- A row is live (not yet deleted) in a phase when its deleted-at marker is the
sentinel. -/
def Row.live (phase : migrationPhase) (r : Row) : Bool :=
  decide (r.deletedAt phase = liveDeletedTxnID)

/-- The live rows of a name. -/
def liveRowsOf (phase : migrationPhase) (name : String) (rows : List Row) : List Row :=
  rows.filter (fun r => r.live phase && decide (r.name = name))

/-- Two rows that differ at most in their deleted-at markers. -/
def Row.sameButDeletedAt (a b : Row) : Prop :=
  a.name = b.name ∧ a.definition = b.definition ∧ a.created_xid = b.created_xid
    ∧ a.created_transaction = b.created_transaction

/-! ## `driver.go` -/

def errUnableToInstantiate : String := "unable to instantiate CRDBDriver: %w"

def postgresMissingTableErrorCode : String := "42P01"

/-- The pgx connection of the migration driver: the rows of the
`schema_version` table (`none` while the table does not exist) and a failure of
the connection or server, if any. -/
structure Conn where
  schema_version : Option (List String)
  fault : Option Error
deriving DecidableEq, Repr

/-- The struct `CRDBDriver`. -/
structure CRDBDriver where
  db : Conn
deriving DecidableEq, Repr

/-- The call `db.QueryRow(ctx, "SELECT version_num from schema_version").Scan(&loaded)`. -/
def Conn.QueryRowVersion (db : Conn) : Except Error String :=
  match db.fault with
  | some err => Except.error err
  | none =>
      match db.schema_version with
      | none => Except.error (Error.PgError "42P01")
      | some [] => Except.error Error.ErrNoRows
      | some (loaded :: _) => Except.ok loaded

/-- The call `db.Exec(ctx, "UPDATE schema_version SET version_num=$1 WHERE
version_num=$2", version, replaced)`: the number of rows affected and the
connection after the statement. -/
def Conn.ExecUpdateVersion (db : Conn) (version replaced : String) : Except Error (Nat × Conn) :=
  match db.fault with
  | some err => Except.error err
  | none =>
      match db.schema_version with
      | none => Except.error (Error.PgError "42P01")
      | some rows =>
          Except.ok ((rows.filter (fun v => decide (v = replaced))).length,
            { db with schema_version := some (rows.map (fun v => if v = replaced then version else v)) })

/-- The method `CRDBDriver.Version`. -/
def CRDBDriver.Version (apd : CRDBDriver) : String × Option Error :=
  match apd.db.QueryRowVersion with
  | Except.error err =>
      match err with
      | Error.PgError code =>
          if code = postgresMissingTableErrorCode then ("", none)
          else ("", some (Errorf "unable to load alembic revision: %w" err))
      | _ => ("", some (Errorf "unable to load alembic revision: %w" err))
  | Except.ok loaded => (loaded, none)

/-- The method `CRDBDriver.WriteVersion`: the error, and the driver with its
connection after the statement.  The second test of `err` in the Go code follows
`RowsAffected`, which returns no error, so it never fires. -/
def CRDBDriver.WriteVersion (apd : CRDBDriver) (version replaced : String) :
    Option Error × CRDBDriver :=
  match apd.db.ExecUpdateVersion version replaced with
  | Except.error err => (some (Errorf "unable to update version row: %w" err), apd)
  | Except.ok (updatedCount, db) =>
      if updatedCount ≠ 1 then
        (some (Error.other
          ("writing version update affected " ++ toString updatedCount ++ " rows, should be 1")),
          { apd with db := db })
      else (none, { apd with db := db })

/-! ## Functions used to state the properties, and sample data -/

/-- The statement `ReadCaveatByName` builds for a name: the select of the phase,
filtered, with the predicate on the name. -/
def readCaveatSql (r : pgReader) (name : String) : SelectBuilder :=
  (r.filterer
    (if r.migrationPhase = migrationPhase.writeBothReadOld then readCaveatDeprecated
     else readCaveat)).Where (Sqlizer.Eq colCaveatName (Val.text name))

/-- The statement `ListCaveats` builds for a list of names. -/
def listCaveatsSql (r : pgReader) (caveatNames : List String) : SelectBuilder :=
  r.filterer
    (if caveatNames.length > 0 then
      listCaveat.Where (Sqlizer.EqAny colCaveatName (caveatNames.map Val.text))
     else listCaveat)

/-- A sample codec: the length of the name, the code points of the name, then
the expression.  Decoding fails on input that is shorter than the length it
announces. -/
def sampleCodec : Codec where
  MarshalVT c :=
    Except.ok (c.Name.length :: (c.Name.data.map Char.toNat ++ c.SerializedExpression))
  UnmarshalVT b :=
    match b with
    | [] => Except.error (Error.other "unexpected EOF")
    | n :: rest =>
        if n ≤ rest.length then
          Except.ok ⟨String.mk ((rest.take n).map Char.ofNat), rest.drop n⟩
        else Except.error (Error.other "unexpected EOF")

/-- Modelled from the spec: the uniqueness of the caveat name among the rows
that are not yet deleted ("Caveat Definition: `(name unique, ...)`", and "at most
one row for a given natural key may be visible at any single revision", §3), as
a check on a table.  The constraints of the caveat table are declared in the
migrations, outside the sources. -/
def liveUnique (phase : migrationPhase) (rows : List Row) : Bool :=
  rows.all (fun r => decide ((liveRowsOf phase r.name rows).length ≤ 1))

/-- A sample table: `expr0` written by transaction 3 and deleted by transaction
4, `expr1` written by transaction 5 and superseded by transaction 7, and a live
`expr2` written by transaction 6. -/
def sampleRows : List Row :=
  [ { name := "expr0", definition := [5, 101, 120, 112, 114, 48, 0], created_xid := 3,
      deleted_xid := 4, created_transaction := some 3, deleted_transaction := 4 },
    { name := "expr1", definition := [5, 101, 120, 112, 114, 49, 1], created_xid := 5,
      deleted_xid := 7, created_transaction := some 5, deleted_transaction := 7 },
    { name := "expr2", definition := [5, 101, 120, 112, 114, 50, 2], created_xid := 6,
      deleted_xid := liveDeletedTxnID, created_transaction := some 6,
      deleted_transaction := liveDeletedTxnID },
    { name := "expr1", definition := [5, 101, 120, 112, 114, 49, 3], created_xid := 7,
      deleted_xid := liveDeletedTxnID, created_transaction := some 7,
      deleted_transaction := liveDeletedTxnID } ]

/-- A sample transaction on the sample table, which declares the uniqueness of
the name among live rows. -/
def sampleTx (phase : migrationPhase) (xid : Nat) : Tx :=
  { rows := sampleRows, xid := xid, accepts := liveUnique phase, fault := none }

/-- A sample reader at snapshot revision `R`. -/
def sampleReader (phase : migrationPhase) (R : Nat) : pgReader :=
  { migrationPhase := phase, filterer := snapshotFilterer phase R,
    txSource := Except.ok (sampleTx phase (R + 1)) }

/-- Ascending order of caveat names: the order of their code points. -/
def nameLE (a b : String) : Prop := a.data.map Char.toNat ≤ b.data.map Char.toNat

/-- The sample table with one more live row, `expr3`, whose stored definition
cannot be decoded (it announces nine bytes of name and holds none). -/
def corruptRows : List Row :=
  sampleRows ++
    [ { name := "expr3", definition := [9], created_xid := 7,
        deleted_xid := liveDeletedTxnID, created_transaction := some 7,
        deleted_transaction := liveDeletedTxnID } ]

/-- A sample reader at snapshot revision `R` of the table with the corrupt row. -/
def corruptReader (phase : migrationPhase) (R : Nat) : pgReader :=
  { migrationPhase := phase, filterer := snapshotFilterer phase R,
    txSource := Except.ok { sampleTx phase (R + 1) with rows := corruptRows } }

/-- Whether a phase writes both the legacy and the new versioning columns. -/
def migrationPhase.writesBoth (phase : migrationPhase) : Bool :=
  decide (phase = migrationPhase.writeBothReadNew ∨ phase = migrationPhase.writeBothReadOld)

/-- The statement `deleteCaveatsFromNames` hands to `tx.Exec`. -/
def deleteStatement (rwt : pgReadWriteTXN) (names : List String) : Statement :=
  if rwt.migrationPhase.writesBoth then
    Statement.update
      [Sqlizer.Eq
          (if rwt.migrationPhase = migrationPhase.writeBothReadOld then colDeletedTxnDeprecated
           else colDeletedXid) (Val.int8 liveDeletedTxnID),
        Sqlizer.EqAny colCaveatName (names.map Val.text)]
      [(colDeletedTxnDeprecated, Val.int8 rwt.newXID.Uint), (colDeletedXid, rwt.newXID.toVal)]
  else
    Statement.update
      [Sqlizer.Eq colDeletedXid (Val.int8 liveDeletedTxnID),
        Sqlizer.EqAny colCaveatName (names.map Val.text)]
      [(colDeletedXid, rwt.newXID.toVal)]

/-- What a row becomes under the soft-delete of the names by transaction `x`: a
live row of one of the names gets `x` as its deleted-at marker (both markers in
the phases that write both columns), every other row stays as it is. -/
def softDelete (phase : migrationPhase) (x : Nat) (names : List String) (row : Row) : Row :=
  if row.live phase && decide (row.name ∈ names) then
    if phase.writesBoth then { row with deleted_transaction := x, deleted_xid := x }
    else { row with deleted_xid := x }
  else row

/-- The row the insert of `WriteCaveats` stores for a definition with serialized
body `b`, in a transaction `xid` whose `newXID.Uint` is `x`. -/
def insertedRow (phase : migrationPhase) (xid x : Nat) (c : CaveatDefinition) (b : List Nat) :
    Row :=
  { name := c.Name, definition := b, created_xid := xid, deleted_xid := liveDeletedTxnID,
    created_transaction := if phase.writesBoth then some x else none,
    deleted_transaction := liveDeletedTxnID }

/-- A sample read-write transaction `xid` on the sample table. -/
def sampleTxn (phase : migrationPhase) (xid : Nat) : pgReadWriteTXN :=
  { migrationPhase := phase, tx := sampleTx phase xid, newXID := ⟨xid, Status.Present⟩ }

/-- The set of values `WriteCaveats` adds to the insert for a definition with
serialized body `b`. -/
def valuesToWrite (rwt : pgReadWriteTXN) (c : CaveatDefinition) (b : List Nat) : List Val :=
  if rwt.migrationPhase.writesBoth then
    [Val.text c.Name, Val.bytea b, Val.int8 rwt.newXID.Uint]
  else [Val.text c.Name, Val.bytea b]

/-- The insert `WriteCaveats` starts from in a phase. -/
def writeOf (phase : migrationPhase) : InsertBuilder :=
  if phase.writesBoth then writeCaveatDeprecated else writeCaveat

/-- A sample read-write transaction `xid` on the given rows of a table that
declares the constraint `liveUnique`. -/
def constrainedTxn (phase : migrationPhase) (xid : Nat) (rows : List Row) : pgReadWriteTXN :=
  { migrationPhase := phase,
    tx := { rows := rows, xid := xid, accepts := liveUnique phase, fault := none },
    newXID := ⟨xid, Status.Present⟩ }

/-! # Theorems -/

/-! ## `driver.go` -/

/-- C7: `Version` returns the empty string and no error when the version query
fails with the missing-table code 42P01 (in particular when the table does not
exist), the stored version and no error when the query succeeds, and the empty
string with a non-nil error for every other failure of the query. -/
theorem Version_outcomes (apd : CRDBDriver) :
    (apd.db.QueryRowVersion = Except.error (Error.PgError "42P01") →
        apd.Version = ("", none))
    ∧ (apd.db.fault = none → apd.db.schema_version = none → apd.Version = ("", none))
    ∧ (∀ loaded, apd.db.QueryRowVersion = Except.ok loaded → apd.Version = (loaded, none))
    ∧ (∀ err, apd.db.QueryRowVersion = Except.error err → err ≠ Error.PgError "42P01" →
        apd.Version.1 = "" ∧ apd.Version.2 ≠ none) := by
  refine ⟨?_, ?_, ?_, ?_⟩
  · intro h
    simp [CRDBDriver.Version, h, postgresMissingTableErrorCode]
  · intro hf ht
    simp [CRDBDriver.Version, Conn.QueryRowVersion, hf, ht, postgresMissingTableErrorCode]
  · intro loaded h
    simp [CRDBDriver.Version, h]
  · intro err h hne
    cases err with
    | PgError code =>
        have hc : code ≠ "42P01" := fun hc => hne (by rw [hc])
        simp [CRDBDriver.Version, h, postgresMissingTableErrorCode, hc]
    | ErrNoRows => simp [CRDBDriver.Version, h]
    | CaveatNameNotFound n => simp [CRDBDriver.Version, h]
    | other m => simp [CRDBDriver.Version, h]
    | wrapped f e => simp [CRDBDriver.Version, h]

/-- Witness of C7 on three connections: no table, a stored version, a lost
connection. -/
theorem Version_outcomes_witness :
    CRDBDriver.Version ⟨⟨none, none⟩⟩ = ("", none)
    ∧ CRDBDriver.Version ⟨⟨some ["add-caveats"], none⟩⟩ = ("add-caveats", none)
    ∧ (CRDBDriver.Version ⟨⟨some ["add-caveats"], some (Error.other "conn closed")⟩⟩).1 = ""
    ∧ (CRDBDriver.Version ⟨⟨some ["add-caveats"], some (Error.other "conn closed")⟩⟩).2 ≠ none :=
  ⟨(Version_outcomes ⟨⟨none, none⟩⟩).2.1 rfl rfl,
   (Version_outcomes ⟨⟨some ["add-caveats"], none⟩⟩).2.2.1 "add-caveats" rfl,
   (Version_outcomes ⟨⟨some ["add-caveats"], some (Error.other "conn closed")⟩⟩).2.2.2
      (Error.other "conn closed") rfl (by decide)⟩

/-- C6: `WriteVersion` returns nil exactly when the update ran without error and
affected exactly one row; it returns an error whenever the update affects a
number of rows other than one, in particular zero rows, which is the case when
no stored version equals `replaced`. -/
theorem WriteVersion_nil_iff (apd : CRDBDriver) (version replaced : String) :
    ((apd.WriteVersion version replaced).1 = none ↔
        ∃ db, apd.db.ExecUpdateVersion version replaced = Except.ok (1, db))
    ∧ (∀ n db, apd.db.ExecUpdateVersion version replaced = Except.ok (n, db) → n ≠ 1 →
        (apd.WriteVersion version replaced).1 ≠ none)
    ∧ (∀ rows, apd.db.schema_version = some rows → (∀ v ∈ rows, v ≠ replaced) →
        (apd.WriteVersion version replaced).1 ≠ none) := by
  refine ⟨?_, ?_, ?_⟩
  · constructor
    · intro h
      unfold CRDBDriver.WriteVersion at h
      split at h
      · simp at h
      · rename_i n db hexec
        by_cases hn : n = 1
        · subst hn
          exact ⟨db, hexec⟩
        · simp [hn] at h
    · rintro ⟨db, hdb⟩
      simp [CRDBDriver.WriteVersion, hdb]
  · intro n db hexec hn
    simp [CRDBDriver.WriteVersion, hexec, hn]
  · intro rows hrows hall
    unfold CRDBDriver.WriteVersion Conn.ExecUpdateVersion
    cases hf : apd.db.fault with
    | some err => simp
    | none =>
        have h0 : rows.filter (fun v => decide (v = replaced)) = [] := by
          rw [List.filter_eq_nil_iff]
          intro v hv
          simpa using hall v hv
        simp [hrows, h0]

/-- Witness of C6: the stored version is replaced when it matches, and a second
identical call, which now matches no row, fails. -/
theorem WriteVersion_nil_iff_witness :
    (CRDBDriver.WriteVersion ⟨⟨some ["v1"], none⟩⟩ "v2" "v1").1 = none
    ∧ (CRDBDriver.WriteVersion ⟨⟨some ["v2"], none⟩⟩ "v2" "v1").1 ≠ none :=
  ⟨(WriteVersion_nil_iff ⟨⟨some ["v1"], none⟩⟩ "v2" "v1").1.2 ⟨⟨some ["v2"], none⟩, rfl⟩,
   (WriteVersion_nil_iff ⟨⟨some ["v2"], none⟩⟩ "v2" "v1").2.2 ["v2"] rfl (by decide)⟩

/-! ## `caveat.go`: reads -/

theorem QueryRow_eq (tx : Tx) (q : SelectBuilder) (hfault : tx.fault = none) :
    tx.QueryRow q =
      match selectRows q tx.rows with
      | [] => Except.error Error.ErrNoRows
      | row :: _ => Except.ok (q.columns.map row.get) := by
  unfold Tx.QueryRow Tx.Query
  rw [hfault]
  cases h : selectRows q tx.rows <;> simp

theorem Is_ErrNoRows_other (msg : String) : Error.Is (Error.other msg) Error.ErrNoRows = false := by
  simp [Error.Is]

theorem scanReadCaveat_pair (phase : migrationPhase) (d v : Val) :
    scanReadCaveat phase (Except.ok [d, v]) =
      match scanBytes d with
      | Except.error err => Except.error err
      | Except.ok serializedDef =>
          if phase = migrationPhase.writeBothReadOld then
            match scanUint64 v with
            | Except.error err => Except.error err
            | Except.ok versionTxDeprecated =>
                Except.ok (serializedDef, ⟨0, Status.Undefined⟩, versionTxDeprecated)
          else
            match scanXid8 v with
            | Except.error err => Except.error err
            | Except.ok txID => Except.ok (serializedDef, txID, 0) := rfl

theorem scanReadCaveat_error_Is (phase : migrationPhase) (res : Except Error (List Val))
    (err : Error) (h : scanReadCaveat phase res = Except.error err)
    (his : Error.Is err Error.ErrNoRows = true) : res = Except.error err := by
  cases res with
  | error e => simpa [scanReadCaveat] using h
  | ok vals =>
      exfalso
      rcases vals with _ | ⟨d, _ | ⟨v, _ | ⟨w, rest⟩⟩⟩
      · simp only [scanReadCaveat, Except.error.injEq] at h
        subst h
        simp [Error.Is] at his
      · simp only [scanReadCaveat, Except.error.injEq] at h
        subst h
        simp [Error.Is] at his
      · rw [scanReadCaveat_pair] at h
        cases hd : scanBytes d with
        | error e =>
            rw [hd] at h
            simp only [Except.error.injEq] at h
            subst h
            cases d <;> simp [scanBytes] at hd <;> subst hd <;> simp [Error.Is] at his
        | ok b =>
            rw [hd] at h
            simp only at h
            split at h
            · cases hv : scanUint64 v with
              | error e =>
                  rw [hv] at h
                  simp only [Except.error.injEq] at h
                  subst h
                  cases v <;> simp [scanUint64] at hv <;> subst hv <;> simp [Error.Is] at his
              | ok n => rw [hv] at h; cases h
            · cases hv : scanXid8 v with
              | error e =>
                  rw [hv] at h
                  simp only [Except.error.injEq] at h
                  subst h
                  cases v <;> simp [scanXid8] at hv <;> subst hv <;> simp [Error.Is] at his
              | ok n => rw [hv] at h; cases h
      · simp only [scanReadCaveat, Except.error.injEq] at h
        subst h
        simp [Error.Is] at his

theorem ReadCaveatByName_eq (codec : Codec) (r : pgReader) (name : String) :
    ReadCaveatByName codec r name =
      if (readCaveatSql r name).columns = [] then
        (none, Revision.NoRevision, some (Errorf errReadCaveat
          (Error.other "select statements must have at least one result column")))
      else
        match r.txSource with
        | Except.error err => (none, Revision.NoRevision, some (Errorf errReadCaveat err))
        | Except.ok tx =>
            match scanReadCaveat r.migrationPhase (tx.QueryRow (readCaveatSql r name)) with
            | Except.error err =>
                if Error.Is err Error.ErrNoRows then
                  (none, Revision.NoRevision, some (Error.CaveatNameNotFound name))
                else (none, Revision.NoRevision, some (Errorf errReadCaveat err))
            | Except.ok (serializedDef, txID, versionTxDeprecated) =>
                match codec.UnmarshalVT serializedDef with
                | Except.error err => (none, Revision.NoRevision, some (Errorf errReadCaveat err))
                | Except.ok d =>
                    (some d, Revision.postgres
                      (if r.migrationPhase = migrationPhase.writeBothReadOld then
                        ⟨⟨versionTxDeprecated, Status.Present⟩, noXmin⟩
                       else ⟨txID, noXmin⟩), none) := by
  unfold ReadCaveatByName SelectBuilder.ToSql
  by_cases hc : (readCaveatSql r name).columns = []
  · have hc2 := hc
    unfold readCaveatSql at hc2
    simp only [hc, hc2, if_true]
  · have hc2 := hc
    unfold readCaveatSql at hc2
    simp only [hc, hc2, if_false]
    rfl

theorem selectRows_eq_nil_iff (q : SelectBuilder) (rows : List Row) :
    selectRows q rows = [] ↔ ∀ row ∈ rows, matchesAll q.whereParts row = false := by
  unfold selectRows
  constructor
  · intro h row hrow
    have hp := (List.perm_insertionSort
      (fun a b => sortKey q.orderBys a ≤ sortKey q.orderBys b)
      (rows.filter (matchesAll q.whereParts)))
    rw [h] at hp
    have hnil : rows.filter (matchesAll q.whereParts) = [] := List.Perm.eq_nil hp.symm
    rw [List.filter_eq_nil_iff] at hnil
    simpa using hnil row hrow
  · intro h
    have hnil : rows.filter (matchesAll q.whereParts) = [] := by
      rw [List.filter_eq_nil_iff]
      intro row hrow
      simp [h row hrow]
    rw [hnil]
    rfl

theorem snapshot_hides_deleted (phase : migrationPhase) (R : Nat) (name : String) (row : Row)
    (q : SelectBuilder) (h : row.name = name → row.deletedAt phase ≤ R) :
    matchesAll ((snapshotFilterer phase R q).Where
      (Sqlizer.Eq colCaveatName (Val.text name))).whereParts row = false := by
  by_cases hn : row.name = name
  · have hd := h hn
    unfold snapshotFilterer
    by_cases hp : phase = migrationPhase.writeBothReadOld
    · simp only [hp, if_true, Row.deletedAt] at hd ⊢
      simp only [matchesAll, SelectBuilder.Where, List.all_append, List.all_cons, List.all_nil,
        Sqlizer.holds, Row.get, colDeletedTxnDeprecated, Bool.and_true]
      simp [Nat.not_lt.mpr hd]
    · simp only [hp, if_false, Row.deletedAt] at hd ⊢
      simp only [matchesAll, SelectBuilder.Where, List.all_append, List.all_cons, List.all_nil,
        Sqlizer.holds, Row.get, colDeletedXid, Bool.and_true]
      simp [Nat.not_lt.mpr hd]
  · simp only [matchesAll, SelectBuilder.Where, List.all_append, List.all_cons, List.all_nil,
      Sqlizer.holds, Row.get, colCaveatName, Bool.and_true]
    simp [hn]

/-- C5: `ReadCaveatByName` returns the caveat-not-found error for the name, with
a nil definition and `NoRevision`, exactly when the statement is built, the
transaction is obtained and the filtered query runs and yields no row; that is
the case when every row of that name is soft-deleted at the snapshot; every
other error it returns is a wrapped read error, in particular a failure of the
query. -/
theorem ReadCaveatByName_notFound (codec : Codec) (r : pgReader) (name : String) :
    ((ReadCaveatByName codec r name).2.2 = some (Error.CaveatNameNotFound name) ↔
        (readCaveatSql r name).columns ≠ [] ∧
        ∃ tx, r.txSource = Except.ok tx ∧ tx.fault = none ∧
          selectRows (readCaveatSql r name) tx.rows = [])
    ∧ ((ReadCaveatByName codec r name).2.2 = some (Error.CaveatNameNotFound name) →
        (ReadCaveatByName codec r name).1 = none ∧
        (ReadCaveatByName codec r name).2.1 = Revision.NoRevision)
    ∧ (∀ err, (ReadCaveatByName codec r name).2.2 = some err →
        err ≠ Error.CaveatNameNotFound name →
        (∃ inner, err = Errorf errReadCaveat inner) ∧
        (ReadCaveatByName codec r name).1 = none ∧
        (ReadCaveatByName codec r name).2.1 = Revision.NoRevision)
    ∧ (∀ tx msg, (readCaveatSql r name).columns ≠ [] → r.txSource = Except.ok tx →
        tx.fault = some msg →
        ReadCaveatByName codec r name =
          (none, Revision.NoRevision, some (Errorf errReadCaveat (Error.other msg))))
    ∧ (∀ R tx, r.filterer = snapshotFilterer r.migrationPhase R → r.txSource = Except.ok tx →
        tx.fault = none →
        (∀ row ∈ tx.rows, row.name = name → row.deletedAt r.migrationPhase ≤ R) →
        ReadCaveatByName codec r name =
          (none, Revision.NoRevision, some (Error.CaveatNameNotFound name))) := by
  have key : ∀ tx, (readCaveatSql r name).columns ≠ [] → r.txSource = Except.ok tx →
      tx.fault = none → selectRows (readCaveatSql r name) tx.rows = [] →
      ReadCaveatByName codec r name =
        (none, Revision.NoRevision, some (Error.CaveatNameNotFound name)) := by
    intro tx hc htx hf hsel
    rw [ReadCaveatByName_eq, if_neg hc, htx]
    simp only [QueryRow_eq tx _ hf, hsel, scanReadCaveat, Error.Is]
    simp
  have shape : (ReadCaveatByName codec r name).2.2 = some (Error.CaveatNameNotFound name) ∨
      (∃ inner, (ReadCaveatByName codec r name).2.2 = some (Errorf errReadCaveat inner)) ∨
      (ReadCaveatByName codec r name).2.2 = none := by
    rw [ReadCaveatByName_eq]
    split
    · exact Or.inr (Or.inl ⟨_, rfl⟩)
    · split
      · exact Or.inr (Or.inl ⟨_, rfl⟩)
      · split
        · split
          · exact Or.inl rfl
          · exact Or.inr (Or.inl ⟨_, rfl⟩)
        · split
          · exact Or.inr (Or.inl ⟨_, rfl⟩)
          · exact Or.inr (Or.inr rfl)
  have nodef : (ReadCaveatByName codec r name).2.2 ≠ none →
      (ReadCaveatByName codec r name).1 = none ∧
      (ReadCaveatByName codec r name).2.1 = Revision.NoRevision := by
    rw [ReadCaveatByName_eq]
    split
    · intro _; exact ⟨rfl, rfl⟩
    · split
      · intro _; exact ⟨rfl, rfl⟩
      · split
        · split
          · intro _; exact ⟨rfl, rfl⟩
          · intro _; exact ⟨rfl, rfl⟩
        · split
          · intro _; exact ⟨rfl, rfl⟩
          · intro h; exact absurd rfl h
  refine ⟨⟨?_, ?_⟩, ?_, ?_, ?_, ?_⟩
  · intro h
    rw [ReadCaveatByName_eq] at h
    by_cases hc : (readCaveatSql r name).columns = []
    · rw [if_pos hc] at h
      simp [Errorf] at h
    · refine ⟨hc, ?_⟩
      rw [if_neg hc] at h
      cases htx : r.txSource with
      | error e =>
          rw [htx] at h
          simp [Errorf] at h
      | ok tx =>
          refine ⟨tx, rfl, ?_⟩
          rw [htx] at h
          simp only at h
          cases hscan : scanReadCaveat r.migrationPhase (tx.QueryRow (readCaveatSql r name)) with
          | error e =>
              rw [hscan] at h
              simp only at h
              by_cases his : Error.Is e Error.ErrNoRows = true
              · have hq := scanReadCaveat_error_Is _ _ _ hscan his
                cases hf : tx.fault with
                | some msg =>
                    simp only [Tx.QueryRow, Tx.Query, hf, Except.error.injEq] at hq
                    subst hq
                    simp [Error.Is] at his
                | none =>
                    refine ⟨rfl, ?_⟩
                    rw [QueryRow_eq tx _ hf] at hq
                    cases hsel : selectRows (readCaveatSql r name) tx.rows with
                    | nil => rfl
                    | cons row rest =>
                        rw [hsel] at hq
                        cases hq
              · simp [his, Errorf] at h
          | ok v =>
              obtain ⟨b, x, n⟩ := v
              rw [hscan] at h
              simp only at h
              cases hd : codec.UnmarshalVT b with
              | error e => rw [hd] at h; simp [Errorf] at h
              | ok d => rw [hd] at h; simp at h
  · rintro ⟨hc, tx, htx, hf, hsel⟩
    rw [key tx hc htx hf hsel]
  · intro h
    exact nodef (by rw [h]; simp)
  · intro err herr hne
    refine ⟨?_, nodef (by rw [herr]; simp)⟩
    rcases shape with h | ⟨inner, h⟩ | h
    · rw [h] at herr
      exact absurd (Option.some.inj herr).symm hne
    · rw [h] at herr
      exact ⟨inner, (Option.some.inj herr).symm⟩
    · rw [h] at herr
      cases herr
  · intro tx msg hc htx hf
    rw [ReadCaveatByName_eq, if_neg hc, htx]
    simp [Tx.QueryRow, Tx.Query, hf, scanReadCaveat, Error.Is]
  · intro R tx hfil htx hf hdel
    have hc : (readCaveatSql r name).columns ≠ [] := by
      unfold readCaveatSql
      rw [hfil]
      unfold snapshotFilterer
      by_cases hp : r.migrationPhase = migrationPhase.writeBothReadOld <;>
        simp [hp, SelectBuilder.Where, readCaveat, readCaveatDeprecated]
    refine key tx hc htx hf ?_
    rw [selectRows_eq_nil_iff]
    intro row hrow
    unfold readCaveatSql
    rw [hfil]
    exact snapshot_hides_deleted _ R name row _ (hdel row hrow)

/-- Witness of C5: at snapshot 7 of the sample table the only row named `expr0`
was soft-deleted by transaction 4, and the read reports not-found. -/
theorem ReadCaveatByName_notFound_witness :
    ReadCaveatByName sampleCodec (sampleReader migrationPhase.complete 7) "expr0" =
      (none, Revision.NoRevision, some (Error.CaveatNameNotFound "expr0")) :=
  (ReadCaveatByName_notFound sampleCodec (sampleReader migrationPhase.complete 7)
    "expr0").2.2.2.2 7 (sampleTx migrationPhase.complete 8) rfl rfl rfl (by decide)

/-- C10: for every phase and every first matched row, `ReadCaveatByName` selects
the legacy created-transaction column and returns its value as the revision
exactly in phase `writeBothReadOld`, and selects the created-xid column and
returns its value in every other phase. -/
theorem ReadCaveatByName_revision_column (codec : Codec) (r : pgReader) (name : String)
    (tx : Tx) (row : Row) (rest : List Row) (d : CaveatDefinition)
    (hcols : ∀ q, (r.filterer q).columns = q.columns)
    (htx : r.txSource = Except.ok tx) (hf : tx.fault = none)
    (hrow : selectRows (readCaveatSql r name) tx.rows = row :: rest)
    (hdec : codec.UnmarshalVT row.definition = Except.ok d) :
    (readCaveatSql r name).columns =
        [colCaveatDefinition,
          if r.migrationPhase = migrationPhase.writeBothReadOld then colCreatedTxnDeprecated
          else colCreatedXid]
    ∧ (r.migrationPhase = migrationPhase.writeBothReadOld →
        ∀ v, row.created_transaction = some v →
          ReadCaveatByName codec r name =
            (some d, Revision.postgres ⟨⟨v, Status.Present⟩, noXmin⟩, none))
    ∧ (r.migrationPhase ≠ migrationPhase.writeBothReadOld →
        ReadCaveatByName codec r name =
          (some d, Revision.postgres ⟨⟨row.created_xid, Status.Present⟩, noXmin⟩, none)) := by
  have hcol : (readCaveatSql r name).columns =
      [colCaveatDefinition,
        if r.migrationPhase = migrationPhase.writeBothReadOld then colCreatedTxnDeprecated
        else colCreatedXid] := by
    unfold readCaveatSql
    simp only [SelectBuilder.Where, hcols]
    by_cases hp : r.migrationPhase = migrationPhase.writeBothReadOld <;>
      simp [hp, readCaveat, readCaveatDeprecated]
  have hne : (readCaveatSql r name).columns ≠ [] := by rw [hcol]; simp
  refine ⟨hcol, ?_, ?_⟩
  · intro hp v hv
    rw [ReadCaveatByName_eq, if_neg hne, htx]
    simp only [QueryRow_eq tx _ hf, hrow, hcol, hp, if_true, List.map, Row.get,
      colCaveatDefinition, colCreatedTxnDeprecated, hv, scanReadCaveat_pair, scanBytes,
      scanUint64, hdec]
  · intro hp
    rw [ReadCaveatByName_eq, if_neg hne, htx]
    simp only [QueryRow_eq tx _ hf, hrow, hcol, hp, if_false, List.map, Row.get,
      colCaveatDefinition, colCreatedXid, scanReadCaveat_pair, scanBytes, scanXid8, hdec]

/-- Witness of C10: the live `expr1` row of the sample table, read in phase
`writeBothReadOld` and in phase `complete`. -/
theorem ReadCaveatByName_revision_column_witness :
    ReadCaveatByName sampleCodec (sampleReader migrationPhase.writeBothReadOld 7) "expr1" =
      (some ⟨"expr1", [3]⟩, Revision.postgres ⟨⟨7, Status.Present⟩, noXmin⟩, none)
    ∧ ReadCaveatByName sampleCodec (sampleReader migrationPhase.complete 7) "expr1" =
      (some ⟨"expr1", [3]⟩, Revision.postgres ⟨⟨7, Status.Present⟩, noXmin⟩, none) :=
  ⟨(ReadCaveatByName_revision_column sampleCodec
      (sampleReader migrationPhase.writeBothReadOld 7) "expr1"
      (sampleTx migrationPhase.writeBothReadOld 8)
      (sampleRows.get ⟨3, by decide⟩) [] ⟨"expr1", [3]⟩
      (fun q => by simp [sampleReader, snapshotFilterer, SelectBuilder.Where])
      rfl rfl rfl rfl).2.1 rfl 7 rfl,
   (ReadCaveatByName_revision_column sampleCodec
      (sampleReader migrationPhase.complete 7) "expr1" (sampleTx migrationPhase.complete 8)
      (sampleRows.get ⟨3, by decide⟩) [] ⟨"expr1", [3]⟩
      (fun q => by simp [sampleReader, snapshotFilterer, SelectBuilder.Where])
      rfl rfl rfl rfl).2.2 (by decide)⟩

theorem ListCaveats_eq (codec : Codec) (r : pgReader) (caveatNames : List String) :
    ListCaveats codec r caveatNames =
      if (listCaveatsSql r caveatNames).columns = [] then
        ([], some (Errorf errListCaveats
          (Error.other "select statements must have at least one result column")))
      else
        match r.txSource with
        | Except.error err => ([], some (Errorf errListCaveats err))
        | Except.ok tx =>
            match tx.Query (listCaveatsSql r caveatNames) with
            | Except.error err => ([], some (Errorf errListCaveats err))
            | Except.ok rows =>
                match listCaveatsLoop codec rows.data [] with
                | Except.error err => ([], some err)
                | Except.ok caveats =>
                    match rows.err with
                    | some err => ([], some (Errorf errListCaveats err))
                    | none => (caveats, none) := by
  unfold ListCaveats SelectBuilder.ToSql
  by_cases hc : (listCaveatsSql r caveatNames).columns = []
  · have hc2 := hc
    unfold listCaveatsSql at hc2
    simp only [hc, hc2, if_true]
  · have hc2 := hc
    unfold listCaveatsSql at hc2
    simp only [hc, hc2, if_false]
    rfl

theorem listCaveatsLoop_ok (codec : Codec) (rows : List Row) :
    ∀ (ds acc : List CaveatDefinition),
      List.Forall₂ (fun row d => codec.UnmarshalVT row.definition = Except.ok d) rows ds →
      listCaveatsLoop codec (rows.map (fun r => [Val.bytea r.definition])) acc =
        Except.ok (acc ++ ds) := by
  induction rows with
  | nil =>
      intro ds acc h
      cases h
      simp [listCaveatsLoop]
  | cons row rest ih =>
      intro ds acc h
      cases h with
      | cons hd htl =>
          simp only [List.map, listCaveatsLoop, scanBytes, hd]
          rw [ih _ _ htl]
          simp

theorem listCaveatsLoop_first_bad (codec : Codec) (bad : Row) (post : List Row) (e : Error)
    (hbad : codec.UnmarshalVT bad.definition = Except.error e) :
    ∀ (pre : List Row) (acc : List CaveatDefinition),
      (∀ row ∈ pre, ∃ d, codec.UnmarshalVT row.definition = Except.ok d) →
      listCaveatsLoop codec ((pre ++ bad :: post).map (fun r => [Val.bytea r.definition])) acc =
        Except.error (Errorf errListCaveats e) := by
  intro pre
  induction pre with
  | nil =>
      intro acc _
      simp only [List.nil_append, List.map_cons, listCaveatsLoop, scanBytes, hbad]
  | cons row rest ih =>
      intro acc hpre
      obtain ⟨d, hd⟩ := hpre row (List.mem_cons_self _ _)
      simp only [List.cons_append, List.map_cons, listCaveatsLoop, scanBytes, hd]
      exact ih _ (fun r hr => hpre r (List.mem_cons_of_mem _ hr))

theorem selectRows_perm (q : SelectBuilder) (rows : List Row) :
    (selectRows q rows).Perm (rows.filter (matchesAll q.whereParts)) :=
  List.perm_insertionSort _ _

theorem selectRows_sorted (q : SelectBuilder) (rows : List Row) :
    (selectRows q rows).Sorted (fun a b => sortKey q.orderBys a ≤ sortKey q.orderBys b) := by
  haveI : IsTotal Row (fun a b => sortKey q.orderBys a ≤ sortKey q.orderBys b) :=
    ⟨fun a b => le_total (sortKey q.orderBys a) (sortKey q.orderBys b)⟩
  haveI : IsTrans Row (fun a b => sortKey q.orderBys a ≤ sortKey q.orderBys b) :=
    ⟨fun _ _ _ h1 h2 => le_trans h1 h2⟩
  exact List.sorted_insertionSort _ _

theorem singleton_le (a b : List Nat) (h : [a] ≤ [b]) : a ≤ b := by
  by_contra hc
  have hlt : b < a := lt_of_not_ge hc
  have hl : [b] < [a] := List.Lex.rel hlt
  exact absurd h (not_le_of_lt hl)

theorem Query_eq (tx : Tx) (q : SelectBuilder) (hf : tx.fault = none) :
    tx.Query q =
      Except.ok { data := (selectRows q tx.rows).map (fun r => q.columns.map r.get),
                  err := none } := by
  unfold Tx.Query
  rw [hf]

theorem forall₂_decode (codec : Codec) (rows : List Row)
    (h : ∀ row ∈ rows, ∃ d, codec.UnmarshalVT row.definition = Except.ok d) :
    ∃ ds, List.Forall₂ (fun row d => codec.UnmarshalVT row.definition = Except.ok d) rows ds := by
  induction rows with
  | nil => exact ⟨[], List.Forall₂.nil⟩
  | cons row rest ih =>
      obtain ⟨d, hd⟩ := h row (List.mem_cons_self _ _)
      obtain ⟨ds, hds⟩ := ih (fun r hr => h r (List.mem_cons_of_mem _ hr))
      exact ⟨d :: ds, List.Forall₂.cons hd hds⟩

/-- C4, as stated, fails on a table state with an undecodable visible row: at
snapshot 7 of the table with the corrupt `expr3` row, read in phase
`writeBothReadOld`, the visible rows are `expr1`, `expr2` and `expr3`, the first
two decode, and `ListCaveats` with no names returns no definition, only an
error. -/
theorem ListCaveats_no_names_counterexample :
    (selectRows (listCaveatsSql (corruptReader migrationPhase.writeBothReadOld 7) [])
        corruptRows).map (fun r => r.name) = ["expr1", "expr2", "expr3"]
    ∧ sampleCodec.UnmarshalVT [5, 101, 120, 112, 114, 49, 3] = Except.ok ⟨"expr1", [3]⟩
    ∧ sampleCodec.UnmarshalVT [5, 101, 120, 112, 114, 50, 2] = Except.ok ⟨"expr2", [2]⟩
    ∧ (ListCaveats sampleCodec (corruptReader migrationPhase.writeBothReadOld 7) []).1 = []
    ∧ (ListCaveats sampleCodec (corruptReader migrationPhase.writeBothReadOld 7) []).2 ≠ none :=
  ⟨rfl, rfl, rfl, rfl, by decide⟩

/-- C4, amended: `ListCaveats` called with no names adds no predicate on the
name: with a filterer that adds the predicates `preds`, and on every table state
in which each row that satisfies `preds` (each visible row) holds a definition
that decodes, it returns the decoded definitions of exactly these rows, each
once, in ascending order of the caveat name. -/
theorem ListCaveats_no_names (codec : Codec) (r : pgReader) (tx : Tx) (preds : List Sqlizer)
    (hfil : r.filterer = whereFilterer preds) (htx : r.txSource = Except.ok tx)
    (hf : tx.fault = none)
    (hdec : ∀ row ∈ tx.rows, matchesAll preds row = true →
      ∃ d, codec.UnmarshalVT row.definition = Except.ok d) :
    (listCaveatsSql r []).whereParts = preds
    ∧ ∃ sorted : List Row,
        sorted.Perm (tx.rows.filter (matchesAll preds))
        ∧ sorted.Sorted (fun a b => nameLE a.name b.name)
        ∧ (ListCaveats codec r []).2 = none
        ∧ List.Forall₂ (fun row d => codec.UnmarshalVT row.definition = Except.ok d)
            sorted (ListCaveats codec r []).1 := by
  have hsql : listCaveatsSql r [] =
      { columns := [colCaveatDefinition], whereParts := preds, orderBys := [colCaveatName] } := by
    simp [listCaveatsSql, hfil, whereFilterer, listCaveat, SelectBuilder.OrderBy]
  refine ⟨by rw [hsql], selectRows (listCaveatsSql r []) tx.rows, ?_, ?_, ?_⟩
  · have hp := selectRows_perm (listCaveatsSql r []) tx.rows
    rw [hsql] at hp ⊢
    exact hp
  · have hs := selectRows_sorted (listCaveatsSql r []) tx.rows
    refine List.Pairwise.imp ?_ hs
    intro a b hab
    rw [hsql] at hab
    exact singleton_le _ _ hab
  · have hall : ∀ row ∈ selectRows (listCaveatsSql r []) tx.rows,
        ∃ d, codec.UnmarshalVT row.definition = Except.ok d := by
      intro row hrow
      have hmem := (selectRows_perm (listCaveatsSql r []) tx.rows).subset hrow
      rw [hsql] at hmem
      obtain ⟨hin, hm⟩ := List.mem_filter.mp hmem
      exact hdec row hin hm
    obtain ⟨ds, hds⟩ := forall₂_decode codec _ hall
    have hloop := listCaveatsLoop_ok codec _ ds [] hds
    have hres : ListCaveats codec r [] = (ds, none) := by
      rw [ListCaveats_eq, if_neg (by rw [hsql]; simp), htx]
      simp only [Query_eq tx _ hf]
      have hdata : (selectRows (listCaveatsSql r []) tx.rows).map
          (fun r0 => (listCaveatsSql r []).columns.map r0.get) =
          (selectRows (listCaveatsSql r []) tx.rows).map (fun r0 => [Val.bytea r0.definition]) := by
        rw [hsql]
        simp [Row.get, colCaveatDefinition]
      rw [hdata, hloop]
      simp
    rw [hres]
    exact ⟨rfl, hds⟩

/-- Witness of the amended C4: the sample table listed at snapshot 7 in phase
`complete`. -/
theorem ListCaveats_no_names_witness :
    ListCaveats sampleCodec (sampleReader migrationPhase.complete 7) [] =
      ([⟨"expr1", [3]⟩, ⟨"expr2", [2]⟩], none)
    ∧ ∃ sorted : List Row,
        sorted.Perm ((sampleTx migrationPhase.complete 8).rows.filter (matchesAll
          [Sqlizer.LtOrEq colCreatedXid (Val.int8 7), Sqlizer.Gt colDeletedXid (Val.int8 7)]))
        ∧ sorted.Sorted (fun a b => nameLE a.name b.name)
        ∧ (ListCaveats sampleCodec (sampleReader migrationPhase.complete 7) []).2 = none
        ∧ List.Forall₂ (fun row d => sampleCodec.UnmarshalVT row.definition = Except.ok d)
            sorted (ListCaveats sampleCodec (sampleReader migrationPhase.complete 7) []).1 :=
  ⟨rfl, (ListCaveats_no_names sampleCodec (sampleReader migrationPhase.complete 7)
    (sampleTx migrationPhase.complete 8)
    [Sqlizer.LtOrEq colCreatedXid (Val.int8 7), Sqlizer.Gt colDeletedXid (Val.int8 7)]
    (by funext q; simp [sampleReader, snapshotFilterer, whereFilterer, SelectBuilder.Where])
    rfl rfl
    (by
      intro row hrow hm
      simp only [sampleTx, sampleRows, List.mem_cons, List.mem_singleton, List.not_mem_nil,
        or_false] at hrow
      rcases hrow with h | h | h | h <;> subst h
      · exact ⟨_, rfl⟩
      · exact ⟨_, rfl⟩
      · exact ⟨_, rfl⟩
      · exact ⟨_, rfl⟩)).2⟩

/-- C8, as stated, fails: in the table with the corrupt `expr3` row the rows
`expr1` and `expr2` are matched and decode, yet `ListCaveats` returns no
definition at all, only the wrapped error of the corrupt row. -/
theorem ListCaveats_corrupt_row_counterexample :
    ListCaveats sampleCodec (corruptReader migrationPhase.complete 7) [] =
      ([], some (Errorf errListCaveats (Error.other "unexpected EOF")))
    ∧ ListCaveats sampleCodec (sampleReader migrationPhase.complete 7) [] =
      ([⟨"expr1", [3]⟩, ⟨"expr2", [2]⟩], none)
    ∧ (⟨"expr1", [3]⟩ : CaveatDefinition) ∉
        (ListCaveats sampleCodec (corruptReader migrationPhase.complete 7) []).1 :=
  ⟨rfl, rfl, by decide⟩

/-- C8, amended: when one of the rows matched by `ListCaveats` holds a
serialized definition that cannot be decoded, the failure is not confined to
that row: with `bad` the first such row in the order of the result, failing to
decode with the error `e`, the call returns no definition at all (a nil slice),
not even those of the rows before `bad` that were decoded, together with `e`
wrapped as a list error. -/
theorem ListCaveats_corrupt_row_aborts (codec : Codec) (r : pgReader) (tx : Tx)
    (caveatNames : List String) (pre post : List Row) (bad : Row) (e : Error)
    (hcols : ∀ q, (r.filterer q).columns = q.columns)
    (htx : r.txSource = Except.ok tx) (hf : tx.fault = none)
    (hsel : selectRows (listCaveatsSql r caveatNames) tx.rows = pre ++ bad :: post)
    (hpre : ∀ row ∈ pre, ∃ d, codec.UnmarshalVT row.definition = Except.ok d)
    (hbad : codec.UnmarshalVT bad.definition = Except.error e) :
    ListCaveats codec r caveatNames = ([], some (Errorf errListCaveats e)) := by
  have hcol : (listCaveatsSql r caveatNames).columns = [colCaveatDefinition] := by
    unfold listCaveatsSql
    rw [hcols]
    by_cases hn : caveatNames.length > 0 <;>
      simp [hn, listCaveat, SelectBuilder.Where, SelectBuilder.OrderBy]
  rw [ListCaveats_eq, if_neg (by rw [hcol]; simp), htx]
  simp only [Query_eq tx _ hf]
  have hdata : (selectRows (listCaveatsSql r caveatNames) tx.rows).map
      (fun r0 => (listCaveatsSql r caveatNames).columns.map r0.get) =
      (pre ++ bad :: post).map (fun r0 => [Val.bytea r0.definition]) := by
    rw [hcol, hsel]
    simp [Row.get, colCaveatDefinition]
  rw [hdata, listCaveatsLoop_first_bad codec bad post e hbad pre [] hpre]

/-- Witness of the amended C8 on the table with the corrupt `expr3` row: the
rows `expr1` and `expr2` come first and decode, `expr3` does not. -/
theorem ListCaveats_corrupt_row_aborts_witness :
    ListCaveats sampleCodec (corruptReader migrationPhase.complete 7) [] =
      ([], some (Errorf errListCaveats (Error.other "unexpected EOF"))) :=
  ListCaveats_corrupt_row_aborts sampleCodec (corruptReader migrationPhase.complete 7)
    { sampleTx migrationPhase.complete 8 with rows := corruptRows } []
    [corruptRows.get ⟨3, by decide⟩, corruptRows.get ⟨2, by decide⟩] []
    (corruptRows.get ⟨4, by decide⟩) (Error.other "unexpected EOF")
    (fun q => by simp [corruptReader, snapshotFilterer, SelectBuilder.Where])
    rfl rfl rfl
    (by
      intro row hrow
      simp only [List.mem_cons, List.mem_singleton, List.not_mem_nil, or_false] at hrow
      rcases hrow with h | h <;> subst h
      · exact ⟨_, rfl⟩
      · exact ⟨_, rfl⟩)
    rfl

/-! ## `caveat.go`: writes -/

theorem deleteCaveatsFromNames_eq (rwt : pgReadWriteTXN) (names : List String) :
    deleteCaveatsFromNames rwt names =
      match rwt.tx.Exec (deleteStatement rwt names) with
      | Except.error err => (some (Errorf errDeleteCaveats err), rwt)
      | Except.ok (_, tx) => (none, { rwt with tx := tx }) := by
  unfold deleteCaveatsFromNames deleteStatement
  cases hp : rwt.migrationPhase <;>
    simp [hp, migrationPhase.writesBoth, deleteCaveat, deleteCaveatDeprecated, UpdateBuilder.Where,
      UpdateBuilder.Set, UpdateBuilder.ToSql]

theorem text_mem_map (name : String) (names : List String) :
    Val.text name ∈ names.map Val.text ↔ name ∈ names := by
  constructor
  · intro h
    obtain ⟨n, hn, heq⟩ := List.mem_map.mp h
    cases heq
    exact hn
  · intro h
    exact List.mem_map.mpr ⟨name, h, rfl⟩

theorem delete_matches (rwt : pgReadWriteTXN) (names : List String) (row : Row) :
    matchesAll
      [Sqlizer.Eq
          (if rwt.migrationPhase = migrationPhase.writeBothReadOld then colDeletedTxnDeprecated
           else colDeletedXid) (Val.int8 liveDeletedTxnID),
        Sqlizer.EqAny colCaveatName (names.map Val.text)] row =
      (row.live rwt.migrationPhase && decide (row.name ∈ names)) := by
  by_cases hp : rwt.migrationPhase = migrationPhase.writeBothReadOld
  · simp [matchesAll, Sqlizer.holds, hp, Row.get, Row.live, Row.deletedAt,
      colDeletedTxnDeprecated, colCaveatName, text_mem_map]
  · simp [matchesAll, Sqlizer.holds, hp, Row.get, Row.live, Row.deletedAt,
      colDeletedXid, colCaveatName, text_mem_map]

theorem delete_matches_new (rwt : pgReadWriteTXN) (names : List String) (row : Row)
    (hp : rwt.migrationPhase ≠ migrationPhase.writeBothReadOld) :
    matchesAll
      [Sqlizer.Eq colDeletedXid (Val.int8 liveDeletedTxnID),
        Sqlizer.EqAny colCaveatName (names.map Val.text)] row =
      (row.live rwt.migrationPhase && decide (row.name ∈ names)) := by
  have h := delete_matches rwt names row
  rw [if_neg hp] at h
  exact h

theorem updateRows_eq_self (wp : List Sqlizer) (sc : List (Column × Val)) (rows : List Row)
    (h : (rows.filter (matchesAll wp)).length = 0) : updateRows wp sc rows = rows := by
  have hnil : rows.filter (matchesAll wp) = [] := List.length_eq_zero.mp h
  rw [List.filter_eq_nil_iff] at hnil
  unfold updateRows
  conv_rhs => rw [← List.map_id rows]
  apply List.map_congr_left
  intro r hr
  simp [hnil r hr]

theorem exec_update_ok (tx tx' : Tx) (wp : List Sqlizer) (sc : List (Column × Val)) (n : Nat)
    (h : tx.Exec (Statement.update wp sc) = Except.ok (n, tx')) :
    tx.fault = none ∧ sc.all assignOk = true
      ∧ tx' = { tx with rows := updateRows wp sc tx.rows }
      ∧ n = (tx.rows.filter (matchesAll wp)).length
      ∧ (n ≠ 0 → sc.any nullViolation = false ∧ tx.accepts (updateRows wp sc tx.rows) = true) := by
  obtain ⟨rows, xid, acc, fault⟩ := tx
  unfold Tx.Exec at h
  cases fault with
  | some msg => cases h
  | none =>
      simp only at h
      by_cases ha : sc.all assignOk = false
      · rw [if_pos ha] at h; cases h
      · rw [if_neg ha] at h
        have ha2 : sc.all assignOk = true := by simpa using ha
        by_cases h0 : (rows.filter (matchesAll wp)).length = 0
        · rw [if_pos h0] at h
          simp only [Except.ok.injEq, Prod.mk.injEq] at h
          obtain ⟨hn, htx⟩ := h
          refine ⟨rfl, ha2, ?_, ?_, ?_⟩
          · rw [updateRows_eq_self wp sc rows h0, ← htx]
          · rw [← hn, h0]
          · intro hne
            exact absurd hn.symm hne
        · rw [if_neg h0] at h
          by_cases hv : sc.any nullViolation = true
          · rw [if_pos hv] at h; cases h
          · rw [if_neg hv] at h
            have hv2 : sc.any nullViolation = false := by simpa using hv
            by_cases hacc : acc (updateRows wp sc rows) = true
            · rw [if_pos hacc] at h
              simp only [Except.ok.injEq, Prod.mk.injEq] at h
              obtain ⟨hn, htx⟩ := h
              exact ⟨rfl, ha2, htx.symm, hn.symm, fun _ => ⟨hv2, hacc⟩⟩
            · rw [if_neg hacc] at h; cases h

theorem toVal_of_accepted (x : xid8) (hok : assignOk (colDeletedXid, x.toVal) = true)
    (hnn : nullViolation (colDeletedXid, x.toVal) = false) : x.toVal = Val.int8 x.Uint := by
  obtain ⟨u, st⟩ := x
  cases st
  · simp [xid8.toVal, assignOk, Column.typeOk, colDeletedXid] at hok
  · simp [xid8.toVal, nullViolation, Column.notNull, colDeletedXid] at hnn
  · rfl

theorem status_of_assignOk (x : xid8) (hok : assignOk (colDeletedXid, x.toVal) = true) :
    x.Status ≠ Status.Undefined := by
  obtain ⟨u, st⟩ := x
  cases st
  · simp [xid8.toVal, assignOk, Column.typeOk, colDeletedXid] at hok
  · simp
  · simp

theorem status_of_toVal (x : xid8) (h : x.toVal = Val.int8 x.Uint) :
    x.Status = Status.Present := by
  obtain ⟨u, st⟩ := x
  cases st <;> simp [xid8.toVal] at h ⊢

theorem exec_delete_ok (rwt : pgReadWriteTXN) (names : List String) (n : Nat) (tx' : Tx)
    (h : rwt.tx.Exec (deleteStatement rwt names) = Except.ok (n, tx')) :
    tx' = { rwt.tx with
            rows := rwt.tx.rows.map (softDelete rwt.migrationPhase rwt.newXID.Uint names) }
      ∧ rwt.tx.fault = none ∧ rwt.newXID.Status ≠ Status.Undefined
      ∧ n = (rwt.tx.rows.filter
          (fun r => r.live rwt.migrationPhase && decide (r.name ∈ names))).length
      ∧ (n ≠ 0 → rwt.newXID.Status = Status.Present ∧ rwt.tx.accepts tx'.rows = true) := by
  unfold deleteStatement at h
  by_cases hb : rwt.migrationPhase.writesBoth = true
  · rw [if_pos hb] at h
    obtain ⟨hf, hok, htx, hn, hrest⟩ := exec_update_ok _ _ _ _ _ h
    have hok2 : assignOk (colDeletedXid, rwt.newXID.toVal) = true := by
      simp only [List.all_cons, List.all_nil, Bool.and_true, Bool.and_eq_true] at hok
      exact hok.2
    have hfilter : rwt.tx.rows.filter (matchesAll
        [Sqlizer.Eq
            (if rwt.migrationPhase = migrationPhase.writeBothReadOld then colDeletedTxnDeprecated
             else colDeletedXid) (Val.int8 liveDeletedTxnID),
          Sqlizer.EqAny colCaveatName (names.map Val.text)]) =
        rwt.tx.rows.filter (fun r => r.live rwt.migrationPhase && decide (r.name ∈ names)) := by
      apply List.filter_congr
      intro r _
      exact delete_matches rwt names r
    have hrows : updateRows
        [Sqlizer.Eq
            (if rwt.migrationPhase = migrationPhase.writeBothReadOld then colDeletedTxnDeprecated
             else colDeletedXid) (Val.int8 liveDeletedTxnID),
          Sqlizer.EqAny colCaveatName (names.map Val.text)]
        [(colDeletedTxnDeprecated, Val.int8 rwt.newXID.Uint), (colDeletedXid, rwt.newXID.toVal)]
        rwt.tx.rows =
        rwt.tx.rows.map (softDelete rwt.migrationPhase rwt.newXID.Uint names) := by
      unfold updateRows
      apply List.map_congr_left
      intro r hr
      rw [delete_matches]
      unfold softDelete
      by_cases hm : (r.live rwt.migrationPhase && decide (r.name ∈ names)) = true
      · have hn0 : n ≠ 0 := by
          rw [hn, hfilter]
          intro h0
          have hnil := List.length_eq_zero.mp h0
          rw [List.filter_eq_nil_iff] at hnil
          exact hnil r hr hm
        have hnv := (hrest hn0).1
        simp only [List.any_cons, List.any_nil, Bool.or_false, Bool.or_eq_false_iff] at hnv
        have hv := toVal_of_accepted rwt.newXID hok2 hnv.2
        rw [if_pos hm, if_pos hm, if_pos hb, hv]
        simp [Row.set, colDeletedTxnDeprecated, colDeletedXid]
      · rw [if_neg hm, if_neg hm]
    rw [hrows] at htx hrest
    refine ⟨htx, hf, status_of_assignOk _ hok2, by rw [hn, hfilter], ?_⟩
    intro hn0
    have hnv := (hrest hn0).1
    simp only [List.any_cons, List.any_nil, Bool.or_false, Bool.or_eq_false_iff] at hnv
    have hv := toVal_of_accepted rwt.newXID hok2 hnv.2
    exact ⟨status_of_toVal _ hv, by rw [htx]; exact (hrest hn0).2⟩
  · rw [if_neg hb] at h
    have hp : rwt.migrationPhase ≠ migrationPhase.writeBothReadOld := by
      intro hp
      apply hb
      simp [migrationPhase.writesBoth, hp]
    obtain ⟨hf, hok, htx, hn, hrest⟩ := exec_update_ok _ _ _ _ _ h
    have hok2 : assignOk (colDeletedXid, rwt.newXID.toVal) = true := by
      simp only [List.all_cons, List.all_nil, Bool.and_true] at hok
      exact hok
    have hfilter : rwt.tx.rows.filter (matchesAll
        [Sqlizer.Eq colDeletedXid (Val.int8 liveDeletedTxnID),
          Sqlizer.EqAny colCaveatName (names.map Val.text)]) =
        rwt.tx.rows.filter (fun r => r.live rwt.migrationPhase && decide (r.name ∈ names)) := by
      apply List.filter_congr
      intro r _
      exact delete_matches_new rwt names r hp
    have hrows : updateRows
        [Sqlizer.Eq colDeletedXid (Val.int8 liveDeletedTxnID),
          Sqlizer.EqAny colCaveatName (names.map Val.text)]
        [(colDeletedXid, rwt.newXID.toVal)]
        rwt.tx.rows =
        rwt.tx.rows.map (softDelete rwt.migrationPhase rwt.newXID.Uint names) := by
      unfold updateRows
      apply List.map_congr_left
      intro r hr
      rw [delete_matches_new rwt names r hp]
      unfold softDelete
      by_cases hm : (r.live rwt.migrationPhase && decide (r.name ∈ names)) = true
      · have hn0 : n ≠ 0 := by
          rw [hn, hfilter]
          intro h0
          have hnil := List.length_eq_zero.mp h0
          rw [List.filter_eq_nil_iff] at hnil
          exact hnil r hr hm
        have hnv := (hrest hn0).1
        simp only [List.any_cons, List.any_nil, Bool.or_false] at hnv
        have hv := toVal_of_accepted rwt.newXID hok2 hnv
        rw [if_pos hm, if_pos hm, if_neg hb, hv]
        simp [Row.set, colDeletedXid]
      · rw [if_neg hm, if_neg hm]
    rw [hrows] at htx hrest
    refine ⟨htx, hf, status_of_assignOk _ hok2, by rw [hn, hfilter], ?_⟩
    intro hn0
    have hnv := (hrest hn0).1
    simp only [List.any_cons, List.any_nil, Bool.or_false] at hnv
    have hv := toVal_of_accepted rwt.newXID hok2 hnv
    exact ⟨status_of_toVal _ hv, by rw [htx]; exact (hrest hn0).2⟩

theorem deleteCaveatsFromNames_ok (rwt : pgReadWriteTXN) (names : List String)
    (h : (deleteCaveatsFromNames rwt names).1 = none) :
    (deleteCaveatsFromNames rwt names).2 =
        { rwt with tx := { rwt.tx with
            rows := rwt.tx.rows.map (softDelete rwt.migrationPhase rwt.newXID.Uint names) } }
      ∧ rwt.tx.fault = none ∧ rwt.newXID.Status ≠ Status.Undefined
      ∧ ((∃ r ∈ rwt.tx.rows, (r.live rwt.migrationPhase && decide (r.name ∈ names)) = true) →
          rwt.newXID.Status = Status.Present) := by
  rw [deleteCaveatsFromNames_eq] at h ⊢
  cases hexec : rwt.tx.Exec (deleteStatement rwt names) with
  | error err => rw [hexec] at h; cases h
  | ok res =>
      obtain ⟨n, tx'⟩ := res
      obtain ⟨htx, hf, hst, hn, hpres⟩ := exec_delete_ok rwt names n tx' hexec
      refine ⟨by simp only [htx], hf, hst, ?_⟩
      rintro ⟨r, hr, hm⟩
      refine (hpres ?_).1
      rw [hn]
      intro h0
      have hnil := List.length_eq_zero.mp h0
      rw [List.filter_eq_nil_iff] at hnil
      exact hnil r hr hm

theorem deleteCaveatsFromNames_err (rwt : pgReadWriteTXN) (names : List String)
    (h : (deleteCaveatsFromNames rwt names).1 ≠ none) :
    (deleteCaveatsFromNames rwt names).2 = rwt := by
  rw [deleteCaveatsFromNames_eq] at h ⊢
  cases hexec : rwt.tx.Exec (deleteStatement rwt names) with
  | error err => rfl
  | ok res => rw [hexec] at h; exact absurd rfl h

theorem assignOk_of_status (x : xid8) (h : x.Status ≠ Status.Undefined) :
    assignOk (colDeletedXid, x.toVal) = true := by
  obtain ⟨u, st⟩ := x
  cases st
  · exact absurd rfl h
  · rfl
  · rfl

theorem deleteCaveatsFromNames_none_live (rwt : pgReadWriteTXN) (names : List String)
    (hf : rwt.tx.fault = none) (hst : rwt.newXID.Status ≠ Status.Undefined)
    (hnone : ∀ row ∈ rwt.tx.rows, row.name ∈ names → row.live rwt.migrationPhase = false) :
    deleteCaveatsFromNames rwt names = (none, rwt) := by
  have hok : assignOk (colDeletedXid, rwt.newXID.toVal) = true :=
    assignOk_of_status _ hst
  have hnil : ∀ wp, (∀ r, matchesAll wp r =
      (r.live rwt.migrationPhase && decide (r.name ∈ names))) →
      (rwt.tx.rows.filter (matchesAll wp)).length = 0 := by
    intro wp hwp
    rw [List.length_eq_zero, List.filter_eq_nil_iff]
    intro r hr
    rw [hwp r]
    by_cases hn : r.name ∈ names
    · simp [hnone r hr hn]
    · simp [hn]
  rw [deleteCaveatsFromNames_eq]
  unfold deleteStatement
  by_cases hb : rwt.migrationPhase.writesBoth = true
  · rw [if_pos hb]
    have h0 := hnil _ (delete_matches rwt names)
    have hall : [(colDeletedTxnDeprecated, Val.int8 rwt.newXID.Uint),
        (colDeletedXid, rwt.newXID.toVal)].all assignOk = true := by
      simp only [List.all_cons, List.all_nil, Bool.and_true, hok, Bool.and_true]
      rfl
    simp only [Tx.Exec, hf, hall, h0]
    rfl
  · rw [if_neg hb]
    have hp : rwt.migrationPhase ≠ migrationPhase.writeBothReadOld := by
      intro hp
      apply hb
      simp [migrationPhase.writesBoth, hp]
    have h0 := hnil _ (fun r => delete_matches_new rwt names r hp)
    have hall : [(colDeletedXid, rwt.newXID.toVal)].all assignOk = true := by
      simp only [List.all_cons, List.all_nil, Bool.and_true, hok]
    simp only [Tx.Exec, hf, hall, h0]
    rfl

theorem softDelete_cases (phase : migrationPhase) (x : Nat) (names : List String) (row : Row) :
    softDelete phase x names row = row ∨
      (row.live phase = true ∧ row.name ∈ names ∧
        Row.sameButDeletedAt row (softDelete phase x names row)) := by
  unfold softDelete
  by_cases hm : (row.live phase && decide (row.name ∈ names)) = true
  · right
    rw [if_pos hm]
    simp only [Bool.and_eq_true, decide_eq_true_eq] at hm
    refine ⟨hm.1, hm.2, ?_⟩
    by_cases hb : phase.writesBoth = true
    · rw [if_pos hb]; exact ⟨rfl, rfl, rfl, rfl⟩
    · rw [if_neg hb]; exact ⟨rfl, rfl, rfl, rfl⟩
  · left
    rw [if_neg hm]

theorem forall₂_map_self {α : Type} (R : α → α → Prop) (f : α → α) (l : List α)
    (h : ∀ a ∈ l, R a (f a)) : List.Forall₂ R l (l.map f) := by
  induction l with
  | nil => exact List.Forall₂.nil
  | cons a rest ih =>
      exact List.Forall₂.cons (h a (List.mem_cons_self _ _))
        (ih (fun b hb => h b (List.mem_cons_of_mem _ hb)))

theorem forall₂_self {α : Type} (R : α → α → Prop) (l : List α)
    (h : ∀ a ∈ l, R a a) : List.Forall₂ R l l := by
  have := forall₂_map_self R id l h
  simpa using this

theorem softDelete_name (phase : migrationPhase) (x : Nat) (names : List String) (row : Row) :
    (softDelete phase x names row).name = row.name := by
  rcases softDelete_cases phase x names row with h | ⟨_, _, h⟩
  · rw [h]
  · exact h.1.symm

theorem softDelete_not_live (phase : migrationPhase) (x : Nat) (names : List String) (row : Row)
    (hx : x ≠ liveDeletedTxnID) (hn : row.name ∈ names) :
    (softDelete phase x names row).live phase = false := by
  unfold softDelete
  by_cases hl : row.live phase = true
  · have hm : (row.live phase && decide (row.name ∈ names)) = true := by simp [hl, hn]
    rw [if_pos hm]
    cases phase <;> simp [migrationPhase.writesBoth, Row.live, Row.deletedAt, hx]
  · have hm : ¬ (row.live phase && decide (row.name ∈ names)) = true := by simp [hl]
    rw [if_neg hm]
    simpa using hl

/-- C2: `DeleteCaveats` removes no row and changes nothing but the deleted-at
markers of live rows whose name is in the list; when none of the names has a
live row it returns no error and leaves every row as it is, which is the state
a successful `DeleteCaveats` of the same names leaves. -/
theorem DeleteCaveats_soft_delete_only (rwt : pgReadWriteTXN) (names : List String) :
    List.Forall₂
        (fun before after => after = before ∨
          (before.live rwt.migrationPhase = true ∧ before.name ∈ names ∧
            Row.sameButDeletedAt before after))
        rwt.tx.rows (DeleteCaveats rwt names).2.tx.rows
    ∧ (rwt.tx.fault = none → rwt.newXID.Status ≠ Status.Undefined →
        (∀ row ∈ rwt.tx.rows, row.name ∈ names → row.live rwt.migrationPhase = false) →
        DeleteCaveats rwt names = (none, rwt))
    ∧ ((DeleteCaveats rwt names).1 = none → rwt.newXID.Uint ≠ liveDeletedTxnID →
        ∀ row ∈ (DeleteCaveats rwt names).2.tx.rows, row.name ∈ names →
          row.live rwt.migrationPhase = false) := by
  unfold DeleteCaveats
  refine ⟨?_, ?_, ?_⟩
  · by_cases h : (deleteCaveatsFromNames rwt names).1 = none
    · rw [(deleteCaveatsFromNames_ok rwt names h).1]
      apply forall₂_map_self
      intro row _
      exact softDelete_cases _ _ _ row
    · rw [deleteCaveatsFromNames_err rwt names h]
      exact forall₂_self _ _ (fun _ _ => Or.inl rfl)
  · intro hf hst hnone
    exact deleteCaveatsFromNames_none_live rwt names hf hst hnone
  · intro h hx row hrow hn
    rw [(deleteCaveatsFromNames_ok rwt names h).1] at hrow
    simp only [List.mem_map] at hrow
    obtain ⟨r0, _, hr0⟩ := hrow
    subst hr0
    rw [softDelete_name] at hn
    exact softDelete_not_live _ _ _ r0 hx hn

/-- Witness of C2: transaction 8 soft-deletes `expr1` and `expr2` in the sample
table; the same delete by transaction 9 finds no live row, returns no error and
changes nothing. -/
theorem DeleteCaveats_soft_delete_only_witness :
    (DeleteCaveats (sampleTxn migrationPhase.complete 8) ["expr1", "expr2"]).1 = none
    ∧ DeleteCaveats
        { sampleTxn migrationPhase.complete 9 with
          tx := { sampleTx migrationPhase.complete 9 with
            rows := (DeleteCaveats (sampleTxn migrationPhase.complete 8)
              ["expr1", "expr2"]).2.tx.rows } }
        ["expr1", "expr2"] =
      (none,
        { sampleTxn migrationPhase.complete 9 with
          tx := { sampleTx migrationPhase.complete 9 with
            rows := (DeleteCaveats (sampleTxn migrationPhase.complete 8)
              ["expr1", "expr2"]).2.tx.rows } }) :=
  ⟨rfl,
   (DeleteCaveats_soft_delete_only
      { sampleTxn migrationPhase.complete 9 with
        tx := { sampleTx migrationPhase.complete 9 with
          rows := (DeleteCaveats (sampleTxn migrationPhase.complete 8)
            ["expr1", "expr2"]).2.tx.rows } }
      ["expr1", "expr2"]).2.1 rfl (by decide) (by decide)⟩

theorem writeCaveatsLoop_ok (codec : Codec) (rwt : pgReadWriteTXN) :
    ∀ (caveats : List CaveatDefinition) (write w : InsertBuilder) (acc ns : List String),
      writeCaveatsLoop codec rwt caveats write acc = Except.ok (w, ns) →
      ∃ bs, List.Forall₂ (fun c b => codec.MarshalVT c = Except.ok b) caveats bs
        ∧ w = { write with
                values := write.values ++ List.zipWith (valuesToWrite rwt) caveats bs }
        ∧ ns = acc ++ caveats.map (fun c => c.Name) := by
  intro caveats
  induction caveats with
  | nil =>
      intro write w acc ns h
      simp only [writeCaveatsLoop, Except.ok.injEq, Prod.mk.injEq] at h
      refine ⟨[], List.Forall₂.nil, ?_, ?_⟩
      · rw [← h.1]; simp
      · rw [← h.2]; simp
  | cons c rest ih =>
      intro write w acc ns h
      unfold writeCaveatsLoop at h
      cases hm : codec.MarshalVT c with
      | error e => rw [hm] at h; cases h
      | ok b =>
          rw [hm] at h
          simp only at h
          obtain ⟨bs, hbs, hw, hns⟩ := ih _ _ _ _ h
          refine ⟨b :: bs, List.Forall₂.cons hm hbs, ?_, ?_⟩
          · rw [hw]
            by_cases hb : rwt.migrationPhase.writesBoth = true
            · have hb2 : rwt.migrationPhase = migrationPhase.writeBothReadNew ∨
                  rwt.migrationPhase = migrationPhase.writeBothReadOld := by
                simpa [migrationPhase.writesBoth] using hb
              simp [InsertBuilder.Values, valuesToWrite, hb, hb2]
            · have hb2 : ¬ (rwt.migrationPhase = migrationPhase.writeBothReadNew ∨
                  rwt.migrationPhase = migrationPhase.writeBothReadOld) := by
                simpa [migrationPhase.writesBoth] using hb
              simp [InsertBuilder.Values, valuesToWrite, hb, hb2]
          · rw [hns]; simp

theorem insertRow_values (rwt : pgReadWriteTXN) (xid : Nat) (c : CaveatDefinition)
    (b : List Nat) :
    insertRow xid (writeOf rwt.migrationPhase).columns (valuesToWrite rwt c b) =
      some (insertedRow rwt.migrationPhase xid rwt.newXID.Uint c b) := by
  by_cases hb : rwt.migrationPhase.writesBoth = true
  · simp [insertRow, writeOf, valuesToWrite, hb, writeCaveatDeprecated, insertedRow,
      assignOk, nullViolation, Column.typeOk, Column.notNull, Row.set, defaultRow,
      colCaveatName, colCaveatDefinition, colCreatedTxnDeprecated]
  · simp [insertRow, writeOf, valuesToWrite, hb, writeCaveat, insertedRow,
      assignOk, nullViolation, Column.typeOk, Column.notNull, Row.set, defaultRow,
      colCaveatName, colCaveatDefinition]

theorem insertRows_values (rwt : pgReadWriteTXN) (xid : Nat) :
    ∀ (caveats : List CaveatDefinition) (bs : List (List Nat)),
      insertRows xid (writeOf rwt.migrationPhase).columns
          (List.zipWith (valuesToWrite rwt) caveats bs) =
        some (List.zipWith (insertedRow rwt.migrationPhase xid rwt.newXID.Uint) caveats bs) := by
  intro caveats
  induction caveats with
  | nil => intro bs; simp [insertRows]
  | cons c rest ih =>
      intro bs
      cases bs with
      | nil => simp [insertRows]
      | cons b bs =>
          simp only [List.zipWith_cons_cons, insertRows, insertRow_values, ih bs]

theorem writeOf_eq (phase : migrationPhase) :
    (if phase = migrationPhase.writeBothReadNew ∨ phase = migrationPhase.writeBothReadOld then
      writeCaveatDeprecated else writeCaveat) = writeOf phase := by
  cases phase <;> simp [writeOf, migrationPhase.writesBoth]

theorem exec_insert_ok (tx tx' : Tx) (columns : List Column) (values : List (List Val))
    (n : Nat) (h : tx.Exec (Statement.insert columns values) = Except.ok (n, tx')) :
    ∃ newRows, insertRows tx.xid columns values = some newRows
      ∧ tx.accepts (tx.rows ++ newRows) = true
      ∧ tx' = { tx with rows := tx.rows ++ newRows } ∧ tx.fault = none := by
  obtain ⟨rows, xid, acc, fault⟩ := tx
  unfold Tx.Exec at h
  cases fault with
  | some msg => cases h
  | none =>
      simp only at h
      cases hi : insertRows xid columns values with
      | none => rw [hi] at h; cases h
      | some newRows =>
          rw [hi] at h
          simp only at h
          by_cases hacc : acc (rows ++ newRows) = true
          · rw [if_pos hacc] at h
            simp only [Except.ok.injEq, Prod.mk.injEq] at h
            exact ⟨newRows, rfl, hacc, h.2.symm, rfl⟩
          · rw [if_neg hacc] at h; cases h

theorem WriteCaveats_ok (codec : Codec) (rwt : pgReadWriteTXN) (caveats : List CaveatDefinition)
    (h : (WriteCaveats codec rwt caveats).1 = none) :
    ∃ bs, List.Forall₂ (fun c b => codec.MarshalVT c = Except.ok b) caveats bs
      ∧ caveats ≠ []
      ∧ (deleteCaveatsFromNames rwt (caveats.map (fun c => c.Name))).1 = none
      ∧ (WriteCaveats codec rwt caveats).2.tx.rows =
          rwt.tx.rows.map
              (softDelete rwt.migrationPhase rwt.newXID.Uint (caveats.map (fun c => c.Name)))
            ++ List.zipWith (insertedRow rwt.migrationPhase rwt.tx.xid rwt.newXID.Uint) caveats bs
      ∧ rwt.tx.accepts (WriteCaveats codec rwt caveats).2.tx.rows = true := by
  unfold WriteCaveats at h ⊢
  simp only [writeOf_eq] at h ⊢
  cases hloop : writeCaveatsLoop codec rwt caveats (writeOf rwt.migrationPhase) [] with
  | error e => rw [hloop] at h; cases h
  | ok res =>
      obtain ⟨w, ns⟩ := res
      rw [hloop] at h
      simp only at h ⊢
      obtain ⟨bs, hbs, hw, hns⟩ := writeCaveatsLoop_ok codec rwt caveats _ _ _ _ hloop
      simp only [List.nil_append] at hns
      subst hns
      cases hd : deleteCaveatsFromNames rwt (caveats.map (fun c => c.Name)) with
      | mk e rwt1 =>
          cases e with
          | some err => rw [hd] at h; cases h
          | none =>
              rw [hd] at h
              simp only at h ⊢
              have hdel := deleteCaveatsFromNames_ok rwt (caveats.map (fun c => c.Name))
                (by rw [hd])
              rw [hd] at hdel
              simp only at hdel
              have hrwt1 := hdel.1
              by_cases hv : w.values = []
              · simp only [InsertBuilder.ToSql, hv, if_true] at h
                cases h
              · simp only [InsertBuilder.ToSql, hv, if_false] at h ⊢
                cases hexec : rwt1.tx.Exec (Statement.insert w.columns w.values) with
                | error e => rw [hexec] at h; cases h
                | ok res2 =>
                    obtain ⟨n, tx'⟩ := res2
                    simp only
                    obtain ⟨newRows, hins, hacc, htx', _⟩ := exec_insert_ok _ _ _ _ _ hexec
                    have hwv : w.values =
                        List.zipWith (valuesToWrite rwt) caveats bs := by
                      rw [hw]
                      simp [writeOf, writeCaveat, writeCaveatDeprecated]
                      by_cases hb : rwt.migrationPhase.writesBoth = true <;> simp [hb]
                    have hwc : w.columns = (writeOf rwt.migrationPhase).columns := by
                      rw [hw]
                    rw [hwc, hwv, hrwt1] at hins
                    simp only at hins
                    rw [insertRows_values rwt rwt.tx.xid caveats bs] at hins
                    have hnew := (Option.some.inj hins).symm
                    subst hnew
                    refine ⟨bs, hbs, ?_, trivial, ?_, ?_⟩
                    · intro hnil
                      subst hnil
                      cases hbs
                      exact hv (by rw [hwv]; rfl)
                    · rw [htx', hrwt1]
                    · rw [htx']
                      simp only [hrwt1] at hacc ⊢
                      exact hacc

theorem softDelete_both (phase : migrationPhase) (x : Nat) (names : List String) (row : Row)
    (hb : phase.writesBoth = true) :
    if row.live phase = true ∧ row.name ∈ names then
      (softDelete phase x names row).deleted_transaction = x
        ∧ (softDelete phase x names row).deleted_xid = x
        ∧ Row.sameButDeletedAt row (softDelete phase x names row)
    else softDelete phase x names row = row := by
  unfold softDelete
  by_cases hm : row.live phase = true ∧ row.name ∈ names
  · have hm2 : (row.live phase && decide (row.name ∈ names)) = true := by simp [hm.1, hm.2]
    rw [if_pos hm, if_pos hm2, if_pos hb]
    exact ⟨rfl, rfl, rfl, rfl, rfl, rfl⟩
  · have hm2 : ¬ (row.live phase && decide (row.name ∈ names)) = true := by
      simpa using hm
    rw [if_neg hm, if_neg hm2]

theorem zipWith_insertedRow_names (phase : migrationPhase) (xid x : Nat) :
    ∀ (caveats : List CaveatDefinition) (bs : List (List Nat)), caveats.length = bs.length →
      (List.zipWith (insertedRow phase xid x) caveats bs).map (fun r => r.name) =
        caveats.map (fun c => c.Name) := by
  intro caveats
  induction caveats with
  | nil => intro bs _; simp
  | cons c rest ih =>
      intro bs hlen
      cases bs with
      | nil => simp at hlen
      | cons b bs =>
          simp only [List.zipWith_cons_cons, List.map_cons, List.length_cons,
            Nat.add_right_cancel_iff] at hlen ⊢
          rw [ih bs hlen]
          rfl

theorem mem_zipWith_of_forall₂ {α β γ : Type} (R : α → β → Prop) (f : α → β → γ)
    (l₁ : List α) (l₂ : List β) (h : List.Forall₂ R l₁ l₂) (z : γ)
    (hz : z ∈ List.zipWith f l₁ l₂) : ∃ a b, a ∈ l₁ ∧ R a b ∧ z = f a b := by
  induction h with
  | nil => simp at hz
  | @cons a b t₁ t₂ hab _ ih =>
      simp only [List.zipWith_cons_cons, List.mem_cons] at hz
      rcases hz with hz | hz
      · exact ⟨a, b, List.mem_cons_self _ _, hab, hz⟩
      · obtain ⟨a2, b2, ha2, hr, hz2⟩ := ih hz
        exact ⟨a2, b2, List.mem_cons_of_mem _ ha2, hr, hz2⟩

/-- C3: in the phases `writeBothReadOld` and `writeBothReadNew` every caveat
soft-delete sets the legacy deleted-transaction column and the deleted-xid
column of the rows it marks to the transaction's new xid, and every row a
caveat insert stores carries that same number in the legacy created-transaction
column and in the created-xid column. -/
theorem dual_write_both_columns (codec : Codec) (rwt : pgReadWriteTXN)
    (hphase : rwt.migrationPhase = migrationPhase.writeBothReadOld ∨
      rwt.migrationPhase = migrationPhase.writeBothReadNew) :
    (∀ names, (DeleteCaveats rwt names).1 = none →
      List.Forall₂
        (fun before after =>
          if before.live rwt.migrationPhase = true ∧ before.name ∈ names then
            after.deleted_transaction = rwt.newXID.Uint ∧ after.deleted_xid = rwt.newXID.Uint
              ∧ Row.sameButDeletedAt before after
          else after = before)
        rwt.tx.rows (DeleteCaveats rwt names).2.tx.rows)
    ∧ (∀ caveats, (WriteCaveats codec rwt caveats).1 = none → rwt.newXID.Uint = rwt.tx.xid →
      ∃ inserted,
        (WriteCaveats codec rwt caveats).2.tx.rows =
            (DeleteCaveats rwt (caveats.map (fun c => c.Name))).2.tx.rows ++ inserted
        ∧ inserted.map (fun r => r.name) = caveats.map (fun c => c.Name)
        ∧ ∀ row ∈ inserted, row.created_transaction = some rwt.newXID.Uint
            ∧ row.created_xid = rwt.newXID.Uint) := by
  have hb : rwt.migrationPhase.writesBoth = true := by
    rcases hphase with h | h <;> simp [migrationPhase.writesBoth, h]
  refine ⟨?_, ?_⟩
  · intro names h
    unfold DeleteCaveats at h ⊢
    rw [(deleteCaveatsFromNames_ok rwt names h).1]
    apply forall₂_map_self
    intro row _
    exact softDelete_both _ _ _ row hb
  · intro caveats h hxid
    obtain ⟨bs, hbs, _, hdel, hrows, _⟩ := WriteCaveats_ok codec rwt caveats h
    refine ⟨List.zipWith (insertedRow rwt.migrationPhase rwt.tx.xid rwt.newXID.Uint) caveats bs,
      ?_, ?_, ?_⟩
    · unfold DeleteCaveats
      rw [hrows, (deleteCaveatsFromNames_ok rwt _ hdel).1]
    · exact zipWith_insertedRow_names _ _ _ caveats bs hbs.length_eq
    · intro row hrow
      obtain ⟨c, b, _, _, hr⟩ := mem_zipWith_of_forall₂ _ _ _ _ hbs row hrow
      subst hr
      simp [insertedRow, hb, hxid]

/-- Witness of C3: transaction 8 in phase `writeBothReadNew` on the sample
table, deleting `expr1` and writing a new `expr1`. -/
theorem dual_write_both_columns_witness :
    List.Forall₂
        (fun before after =>
          if before.live migrationPhase.writeBothReadNew = true ∧ before.name ∈ ["expr1"] then
            after.deleted_transaction = 8 ∧ after.deleted_xid = 8
              ∧ Row.sameButDeletedAt before after
          else after = before)
        sampleRows (DeleteCaveats (sampleTxn migrationPhase.writeBothReadNew 8) ["expr1"]).2.tx.rows
    ∧ ∃ inserted,
        (WriteCaveats sampleCodec (sampleTxn migrationPhase.writeBothReadNew 8)
            [⟨"expr1", [9]⟩]).2.tx.rows =
            (DeleteCaveats (sampleTxn migrationPhase.writeBothReadNew 8) ["expr1"]).2.tx.rows
              ++ inserted
        ∧ inserted.map (fun r => r.name) = ["expr1"]
        ∧ ∀ row ∈ inserted, row.created_transaction = some 8 ∧ row.created_xid = 8 :=
  ⟨(dual_write_both_columns sampleCodec (sampleTxn migrationPhase.writeBothReadNew 8)
      (Or.inr rfl)).1 ["expr1"] rfl,
   (dual_write_both_columns sampleCodec (sampleTxn migrationPhase.writeBothReadNew 8)
      (Or.inr rfl)).2 [⟨"expr1", [9]⟩] rfl rfl⟩

theorem liveRowsOf_append (phase : migrationPhase) (n : String) (a b : List Row) :
    liveRowsOf phase n (a ++ b) = liveRowsOf phase n a ++ liveRowsOf phase n b := by
  simp [liveRowsOf]

theorem insertedRow_live (phase : migrationPhase) (xid x : Nat) (c : CaveatDefinition)
    (b : List Nat) : (insertedRow phase xid x c b).live phase = true := by
  cases phase <;> simp [insertedRow, Row.live, Row.deletedAt]

theorem mem_liveRowsOf_inserted (phase : migrationPhase) (xid x : Nat)
    (R : CaveatDefinition → List Nat → Prop) (caveats : List CaveatDefinition)
    (bs : List (List Nat)) (h : List.Forall₂ R caveats bs) :
    ∀ c ∈ caveats, ∃ b, R c b ∧
      insertedRow phase xid x c b ∈
        liveRowsOf phase c.Name (List.zipWith (insertedRow phase xid x) caveats bs) := by
  induction h with
  | nil => intro c hc; cases hc
  | @cons a b t₁ t₂ hab _ ih =>
      intro c hc
      rcases List.mem_cons.mp hc with heq | hin
      · subst heq
        refine ⟨b, hab, ?_⟩
        unfold liveRowsOf
        rw [List.mem_filter]
        refine ⟨by simp, ?_⟩
        have hl := insertedRow_live phase xid x c b
        have hnm : (insertedRow phase xid x c b).name = c.Name := rfl
        simp [hl, hnm]
      · obtain ⟨b2, hr, hmem⟩ := ih c hin
        refine ⟨b2, hr, ?_⟩
        unfold liveRowsOf at hmem ⊢
        rw [List.mem_filter] at hmem ⊢
        exact ⟨by simp only [List.zipWith_cons_cons]; exact List.mem_cons_of_mem _ hmem.1,
          hmem.2⟩

theorem eq_singleton_of_mem {α : Type} (l : List α) (e : α) (hmem : e ∈ l)
    (hlen : l.length ≤ 1) : l = [e] := by
  cases l with
  | nil => cases hmem
  | cons a rest =>
      cases rest with
      | nil =>
          simp only [List.mem_singleton] at hmem
          rw [hmem]
      | cons b rest2 => simp at hlen

theorem liveUnique_le_one (phase : migrationPhase) (rows : List Row)
    (h : liveUnique phase rows = true) (n : String) :
    (liveRowsOf phase n rows).length ≤ 1 := by
  cases hl : liveRowsOf phase n rows with
  | nil => simp
  | cons r rest =>
      have hr : r ∈ liveRowsOf phase n rows := by rw [hl]; exact List.mem_cons_self _ _
      unfold liveRowsOf at hr
      obtain ⟨hmem, hp⟩ := List.mem_filter.mp hr
      simp only [Bool.and_eq_true, decide_eq_true_eq] at hp
      unfold liveUnique at h
      rw [List.all_eq_true] at h
      have := h r hmem
      simp only [decide_eq_true_eq] at this
      rw [hp.2, hl] at this
      exact this

/-- C1: on a caveat table that keeps the name unique among live rows (spec §3),
for every list of caveat definitions: after `WriteCaveats` succeeds, each name
in the list has exactly one live row, and that row is the one this call stored,
holding the serialized body passed in it. -/
theorem WriteCaveats_one_live_row (codec : Codec) (rwt : pgReadWriteTXN)
    (caveats : List CaveatDefinition)
    (hU : ∀ rows, rwt.tx.accepts rows = true → liveUnique rwt.migrationPhase rows = true)
    (hok : (WriteCaveats codec rwt caveats).1 = none) :
    ∀ c ∈ caveats, ∃ row b, codec.MarshalVT c = Except.ok b
      ∧ liveRowsOf rwt.migrationPhase c.Name (WriteCaveats codec rwt caveats).2.tx.rows = [row]
      ∧ row.name = c.Name ∧ row.definition = b ∧ row.created_xid = rwt.tx.xid := by
  obtain ⟨bs, hbs, _, _, hrows, hacc⟩ := WriteCaveats_ok codec rwt caveats hok
  intro c hc
  obtain ⟨b, hb, hmem⟩ := mem_liveRowsOf_inserted rwt.migrationPhase rwt.tx.xid
    rwt.newXID.Uint _ caveats bs hbs c hc
  refine ⟨insertedRow rwt.migrationPhase rwt.tx.xid rwt.newXID.Uint c b, b, hb, ?_,
    rfl, rfl, rfl⟩
  apply eq_singleton_of_mem
  · rw [hrows, liveRowsOf_append]
    exact List.mem_append_right _ hmem
  · exact liveUnique_le_one _ _ (hU _ hacc) c.Name

/-- Witness of C1, scenario E: transaction 5 writes `expr1` with body `[1]` into
an empty table, then transaction 6 writes `expr1` with body `[2]`; one live
`expr1` row is left, holding the second body. -/
theorem WriteCaveats_one_live_row_witness :
    (WriteCaveats sampleCodec (constrainedTxn migrationPhase.complete 5 []) [⟨"expr1", [1]⟩]).1
        = none
    ∧ liveRowsOf migrationPhase.complete "expr1"
        (WriteCaveats sampleCodec
          (constrainedTxn migrationPhase.complete 6
            (WriteCaveats sampleCodec (constrainedTxn migrationPhase.complete 5 [])
              [⟨"expr1", [1]⟩]).2.tx.rows)
          [⟨"expr1", [2]⟩]).2.tx.rows =
        [{ name := "expr1", definition := [5, 101, 120, 112, 114, 49, 2], created_xid := 6,
           deleted_xid := liveDeletedTxnID, created_transaction := none,
           deleted_transaction := liveDeletedTxnID }]
    ∧ ∀ c ∈ [(⟨"expr1", [2]⟩ : CaveatDefinition)], ∃ row b,
        sampleCodec.MarshalVT c = Except.ok b
        ∧ liveRowsOf migrationPhase.complete c.Name
            (WriteCaveats sampleCodec
              (constrainedTxn migrationPhase.complete 6
                (WriteCaveats sampleCodec (constrainedTxn migrationPhase.complete 5 [])
                  [⟨"expr1", [1]⟩]).2.tx.rows)
              [⟨"expr1", [2]⟩]).2.tx.rows = [row]
        ∧ row.name = c.Name ∧ row.definition = b ∧ row.created_xid = 6 :=
  ⟨rfl, rfl,
   WriteCaveats_one_live_row sampleCodec
      (constrainedTxn migrationPhase.complete 6
        (WriteCaveats sampleCodec (constrainedTxn migrationPhase.complete 5 [])
          [⟨"expr1", [1]⟩]).2.tx.rows)
      [⟨"expr1", [2]⟩] (fun _ h => h) rfl⟩

end Spicedb
